import Mathlib

/-!
# Verification of the rusted-asteroids server simulation

Shallow embedding of the rusted-asteroids repository (crates `shared`,
`server`, `client`) and proofs about it.

Modelling conventions, used throughout:

* `f32` arithmetic is embedded as exact rational (`ℚ`) arithmetic; claims are
  settled at the level of the algorithms, not of IEEE-754 rounding.
* `Instant` values are rationals (seconds since server start).  Within one
  call of `tick` the source calls `Instant::now()` repeatedly; the embedding
  freezes time at the single `now` captured at the top of `tick`
  (`main.rs:375`), as the successive calls differ only by microseconds.
* `rand::Rng` is embedded as an explicit stream of rationals (`Rng`): each
  call of `gen` / `gen_range` consumes one element of the stream and returns
  it unconstrained.  No claim depends on the numeric range of a draw.
* Transcendental functions (`cos`, `sin`, `sqrt`, `atan2`, `π`), which only
  influence positions and velocities, are supplied by an `Env` record of
  unconstrained rational functions.
* Rust `HashMap`s (`players`, `runtime`) are embedded as lists; iteration
  order of a `HashMap` is arbitrary, and no claim proved here depends on it.
  `Vec`s are lists; `Vec::retain` is `List.filter`.
-/

/-! ## shared/src/lib.rs -/

/-- `WORLD_WIDTH` (shared/src/lib.rs:3). -/
def WORLD_WIDTH : ℚ := 240

/-- `WORLD_HEIGHT` (shared/src/lib.rs:4). -/
def WORLD_HEIGHT : ℚ := 80

/-- `Vec2` (shared/src/lib.rs:37-41). -/
structure Vec2 where
  x : ℚ
  y : ℚ
deriving DecidableEq

/-- `Vec2::add` (shared/src/lib.rs:48-50). -/
def Vec2.add (a b : Vec2) : Vec2 := ⟨a.x + b.x, a.y + b.y⟩

/-- `Vec2::scale` (shared/src/lib.rs:52-54). -/
def Vec2.scale (a : Vec2) (s : ℚ) : Vec2 := ⟨a.x * s, a.y * s⟩

/-- One axis of `wrap_position` (shared/src/lib.rs:125-139): the two
sequential conditionals `if v < 0 { v += e }` then `if v >= e { v -= e }`. -/
def wrap_axis (v e : ℚ) : ℚ :=
  let a := if v < 0 then v + e else v
  if a ≥ e then a - e else a

/-- `wrap_position` (shared/src/lib.rs:125-139): the x and y axes are
treated independently, each by the two sequential conditionals. -/
def wrap_position (p : Vec2) : Vec2 :=
  ⟨wrap_axis p.x WORLD_WIDTH, wrap_axis p.y WORLD_HEIGHT⟩

/-- The field names of `PlayerInput` as declared in shared/src/lib.rs:57-63:
`thrust: bool`, `target_angle: Option<f32>`, `fire: bool`. -/
def playerInputDeclaredFields : List String := ["thrust", "target_angle", "fire"]

/-- The field names of the input record that server/src/main.rs:447 and
client/src/main.rs:230-234 actually read and construct. -/
def playerInputUsedFields : List String := ["thrust", "rotate", "fire"]

/-- The input record as the server and client use it
(client/src/main.rs:230-234 constructs `PlayerInput { thrust, rotate, fire }`
with `rotate ∈ {-1, 0, 1}`; server/src/main.rs:447 reads `input.rotate`).
The `shared` crate instead declares a field `target_angle: Option<f32>`
(shared/src/lib.rs:57-63); the crates are inconsistent and the repository
does not compile as given.  The embedding follows the two usage sites. -/
structure PlayerInput where
  thrust : Bool
  rotate : Int
  fire : Bool
deriving DecidableEq

/-- `PlayerInput::default()`: `thrust = false`, `rotate = 0`, `fire = false`. -/
def PlayerInput.default : PlayerInput := ⟨false, 0, false⟩

/-- `PowerUpKind` (shared/src/lib.rs:6-12). -/
inductive PowerUpKind where
  | Shield
  | RapidFire
  | TripleShot
  | SpeedBoost
deriving DecidableEq

/-- `PlayerEffects` (shared/src/lib.rs:21-28): remaining durations. -/
structure PlayerEffects where
  shield_remaining : Option ℚ
  rapid_fire_remaining : Option ℚ
  triple_shot_remaining : Option ℚ
  speed_boost_remaining : Option ℚ
  invincible_remaining : Option ℚ
deriving DecidableEq

/-- `PlayerEffects::default()`. -/
def PlayerEffects.default : PlayerEffects := ⟨none, none, none, none, none⟩

/-- `PlayerState` (shared/src/lib.rs:65-82).  The display name plays no role
in any claim and is omitted. -/
structure PlayerState where
  id : ℕ
  pos : Vec2
  vel : Vec2
  angle : ℚ
  alive : Bool
  score : ℕ
  combo : ℕ
  kill_streak : ℕ
  respawn_timer : Option ℚ
  effects : PlayerEffects
deriving DecidableEq

/-- `AsteroidState` (shared/src/lib.rs:84-90). -/
structure AsteroidState where
  id : ℕ
  pos : Vec2
  vel : Vec2
  size : ℕ
deriving DecidableEq

/-- `BulletState` (shared/src/lib.rs:92-98). -/
structure BulletState where
  id : ℕ
  owner_id : ℕ
  pos : Vec2
  vel : Vec2
deriving DecidableEq

/-- `PowerUpState` (shared/src/lib.rs:14-19). -/
structure PowerUpState where
  id : ℕ
  pos : Vec2
  kind : PowerUpKind
deriving DecidableEq

/-! ## server/src/main.rs: constants (lines 16-46) -/

def TICK_HZ : ℕ := 20
def ROT_SPEED : ℚ := 5
def THRUST : ℚ := 12
def DRAG : ℚ := 197/200
def MAX_SPEED : ℚ := 25
def BULLET_SPEED : ℚ := 30
def FIRE_COOLDOWN : ℚ := 1/5
def BULLET_TTL : ℚ := 5/2
def ASTEROID_COUNT : ℕ := 50
def SPAWN_INVINCIBILITY_SECS : ℚ := 5/2
def RESPAWN_DELAY_SECS : ℚ := 3/2
def SAFE_SPAWN_RADIUS : ℚ := 8
def POWERUP_SPAWN_CHANCE : ℚ := 3/10
def POWERUP_DURATION_SECS : ℚ := 8
def POWERUP_TTL_SECS : ℚ := 15
def POWERUP_RADIUS : ℚ := 3/2
def COMBO_TIMEOUT_SECS : ℚ := 3
def MAX_COMBO : ℕ := 10
def KILL_STREAK_BONUS_INTERVAL : ℕ := 3
def KILL_STREAK_BONUS_POINTS : ℕ := 100
def DEATH_PENALTY_PERCENT : ℚ := 15/100
def RAPID_FIRE_COOLDOWN_MULT : ℚ := 2/5
def SPEED_BOOST_MULT : ℚ := 3/2
def WAVE_COUNTDOWN_SECS : ℚ := 3
def ASTEROIDS_PER_WAVE : ℕ := 5
def PLAYER_RADIUS : ℚ := 3/2
def BULLET_RADIUS : ℚ := 1/2

/-- `asteroid_radius` (main.rs:48-54). -/
def asteroid_radius (size : ℕ) : ℚ :=
  match size with
  | 1 => 2
  | 2 => 3
  | _ => 4

/-- `shortest_delta` (main.rs:56-65). -/
def shortest_delta (a b wrap : ℚ) : ℚ :=
  let d := a - b
  if d > wrap / 2 then d - wrap
  else if d < -(wrap / 2) then d + wrap
  else d

/-- `distance_squared_wrapped` (main.rs:67-71). -/
def distance_squared_wrapped (a b : Vec2) : ℚ :=
  let dx := shortest_delta a.x b.x WORLD_WIDTH
  let dy := shortest_delta a.y b.y WORLD_HEIGHT
  dx * dx + dy * dy

/-- The world-membership predicate `[0, extent)` on both axes, as claimed by
the spec for `wrap`. -/
def inWorld (p : Vec2) : Prop :=
  0 ≤ p.x ∧ p.x < WORLD_WIDTH ∧ 0 ≤ p.y ∧ p.y < WORLD_HEIGHT

instance (p : Vec2) : Decidable (inWorld p) := by
  unfold inWorld
  infer_instance

/-! ## Randomness and environment abstractions -/

/-- Deterministic stand-in for `rand::thread_rng()`: a stream of rationals
together with a cursor.  Each `gen`/`gen_range` call of the source consumes
one element and returns it unconstrained (the numeric range of a draw plays
no role in any claim). -/
structure Rng where
  seq : ℕ → ℚ
  idx : ℕ

/-- Consume one rational draw. -/
def Rng.draw (r : Rng) : ℚ × Rng :=
  (r.seq r.idx, { r with idx := r.idx + 1 })

/-- Consume one draw and interpret it as a natural number, for the source's
integer `gen_range` calls. -/
def Rng.drawNat (r : Rng) : ℕ × Rng :=
  let (q, r') := r.draw
  (q.floor.toNat, r')

/-- The transcendental functions used by the source (`cos`, `sin`, `sqrt`,
`atan2`, `π`), supplied as unconstrained rational functions: they only
influence positions and velocities, never the control flow of any claim. -/
structure Env where
  cos : ℚ → ℚ
  sin : ℚ → ℚ
  sqrt : ℚ → ℚ
  atan2 : ℚ → ℚ → ℚ
  pi : ℚ

/-! ## server/src/main.rs: runtime records -/

/-- `PlayerRuntime` (main.rs:73-87).  `Instant`s are rational times. -/
structure PlayerRuntime where
  input : PlayerInput
  last_fire : ℚ
  invincible_until : Option ℚ
  respawn_at : Option ℚ
  last_kill_time : Option ℚ
  combo : ℕ
  kill_streak : ℕ
  shield_until : Option ℚ
  rapid_fire_until : Option ℚ
  triple_shot_until : Option ℚ
  speed_boost_until : Option ℚ
deriving DecidableEq

/-- `PlayerRuntime::new()` (main.rs:89-104); `now` stands for the
`Instant::now()` stored into `last_fire`. -/
def PlayerRuntime.new (now : ℚ) : PlayerRuntime :=
  { input := PlayerInput.default
    last_fire := now
    invincible_until := none
    respawn_at := none
    last_kill_time := none
    combo := 0
    kill_streak := 0
    shield_until := none
    rapid_fire_until := none
    triple_shot_until := none
    speed_boost_until := none }

/-- `PlayerRuntime::is_invincible` (main.rs:106-109). -/
def PlayerRuntime.is_invincible (rt : PlayerRuntime) (now : ℚ) : Bool :=
  (rt.invincible_until.elim false fun t => now < t)
    || (rt.shield_until.elim false fun t => now < t)

/-- `PlayerRuntime::has_rapid_fire` (main.rs:111-113). -/
def PlayerRuntime.has_rapid_fire (rt : PlayerRuntime) (now : ℚ) : Bool :=
  rt.rapid_fire_until.elim false fun t => now < t

/-- `PlayerRuntime::has_triple_shot` (main.rs:115-117). -/
def PlayerRuntime.has_triple_shot (rt : PlayerRuntime) (now : ℚ) : Bool :=
  rt.triple_shot_until.elim false fun t => now < t

/-- `PlayerRuntime::has_speed_boost` (main.rs:119-121). -/
def PlayerRuntime.has_speed_boost (rt : PlayerRuntime) (now : ℚ) : Bool :=
  rt.speed_boost_until.elim false fun t => now < t

/-- Remaining-duration projection of one timed effect, as used by
`get_effects` (main.rs:123-162). -/
def effectRemaining (until_ : Option ℚ) (now : ℚ) : Option ℚ :=
  until_.bind fun t => if t > now then some (t - now) else none

/-- `PlayerRuntime::get_effects` (main.rs:123-162). -/
def PlayerRuntime.get_effects (rt : PlayerRuntime) (now : ℚ) : PlayerEffects :=
  { shield_remaining := effectRemaining rt.shield_until now
    rapid_fire_remaining := effectRemaining rt.rapid_fire_until now
    triple_shot_remaining := effectRemaining rt.triple_shot_until now
    speed_boost_remaining := effectRemaining rt.speed_boost_until now
    invincible_remaining := effectRemaining rt.invincible_until now }

/-- `PowerUpRuntime` (main.rs:165-168). -/
structure PowerUpRuntime where
  state : PowerUpState
  expires_at : ℚ
deriving DecidableEq

/-- `BulletRuntime` (main.rs:170-173). -/
structure BulletRuntime where
  state : BulletState
  ttl : ℚ
deriving DecidableEq

/-- `ServerState` (main.rs:177-188).  The two `HashMap`s keyed by player id
are embedded as lists (`players` carries its key inside each record;
`runtime` is an association list).  `clients` keeps only the assigned ids:
the outbound channels play no role in any claim. -/
structure ServerState where
  next_id : ℕ
  players : List PlayerState
  runtime : List (ℕ × PlayerRuntime)
  bullets : List BulletRuntime
  asteroids : List AsteroidState
  clients : List ℕ
  power_ups : List PowerUpRuntime
  current_wave : ℕ
  wave_countdown : Option ℚ
deriving DecidableEq

/-! ## Map access helpers (the embedding of `HashMap` get / get_mut) -/

/-- `s.players.get(&pid)` on the list embedding. -/
def lookupPlayer (ps : List PlayerState) (pid : ℕ) : Option PlayerState :=
  ps.find? fun p => p.id == pid

/-- `s.players.get_mut(&pid)` followed by a field update: rewrite the
matching record in place, leave everything else unchanged.  When no record
matches this is the `if let Some(..)` falling through. -/
def updatePlayer (ps : List PlayerState) (pid : ℕ) (f : PlayerState → PlayerState) :
    List PlayerState :=
  ps.map fun p => if p.id == pid then f p else p

/-- `s.runtime.get(&pid)`. -/
def lookupRt (rts : List (ℕ × PlayerRuntime)) (pid : ℕ) : Option PlayerRuntime :=
  (rts.find? fun e => e.1 == pid).map (·.2)

/-- `s.runtime.get_mut(&pid)` followed by a field update. -/
def updateRt (rts : List (ℕ × PlayerRuntime)) (pid : ℕ)
    (f : PlayerRuntime → PlayerRuntime) : List (ℕ × PlayerRuntime) :=
  rts.map fun e => if e.1 == pid then (e.1, f e.2) else e

/-! ## server/src/main.rs: spawning helpers -/

/-- `next_entity_id` (main.rs:841-845). -/
def next_entity_id (s : ServerState) : ℕ × ServerState :=
  (s.next_id, { s with next_id := s.next_id + 1 })

/-- The safety test of one candidate position inside
`find_safe_spawn_position` (main.rs:791-799): safe iff no asteroid is within
`SAFE_SPAWN_RADIUS + asteroid_radius`. -/
def safePosOk (asteroids : List AsteroidState) (pos : Vec2) : Bool :=
  asteroids.all fun ast =>
    decide (¬ (distance_squared_wrapped pos ast.pos <
      (SAFE_SPAWN_RADIUS + asteroid_radius ast.size) *
        (SAFE_SPAWN_RADIUS + asteroid_radius ast.size)))

/-- `find_safe_spawn_position` (main.rs:784-809).  The fuel argument is the
source's fixed budget of 50 random attempts (call sites pass 50); at fuel 0
the fallback draws one unconstrained random position. -/
def find_safe_spawn_position (asteroids : List AsteroidState) :
    Rng → ℕ → Vec2 × Rng
  | rng, 0 =>
    let (x, r1) := rng.draw
    let (y, r2) := r1.draw
    (⟨x, y⟩, r2)
  | rng, n + 1 =>
    let (x, r1) := rng.draw
    let (y, r2) := r1.draw
    let pos : Vec2 := ⟨x, y⟩
    if safePosOk asteroids pos then (pos, r2)
    else find_safe_spawn_position asteroids r2 n

/-- `spawn_player` (main.rs:811-827). -/
def spawn_player (id : ℕ) (asteroids : List AsteroidState) (rng : Rng) :
    PlayerState × Rng :=
  let (pos, r1) := find_safe_spawn_position asteroids rng 50
  let (ang, r2) := r1.draw
  ({ id := id, pos := pos, vel := ⟨0, 0⟩, angle := ang, alive := true,
     score := 0, combo := 0, kill_streak := 0, respawn_timer := none,
     effects := PlayerEffects.default }, r2)

/-- `spawn_asteroids` (main.rs:829-839): `count` asteroids, each taking its
id from `next_entity_id` and then drawing position, velocity and size. -/
def spawn_asteroids : ℕ → ServerState → Rng → List AsteroidState × ServerState × Rng
  | 0, s, rng => ([], s, rng)
  | n + 1, s, rng =>
    let (aid, s') := next_entity_id s
    let (px, r1) := rng.draw
    let (py, r2) := r1.draw
    let (vx, r3) := r2.draw
    let (vy, r4) := r3.draw
    let (sz, r5) := r4.drawNat
    let ast : AsteroidState := { id := aid, pos := ⟨px, py⟩, vel := ⟨vx, vy⟩, size := sz }
    let (rest, s'', rng') := spawn_asteroids n s' r5
    (ast :: rest, s'', rng')

/-- `ServerState::new` (main.rs:190-206): counter starts at 1, then the
initial `ASTEROID_COUNT` asteroids are spawned (consuming ids). -/
def ServerState.new (rng : Rng) : ServerState × Rng :=
  let s0 : ServerState :=
    { next_id := 1, players := [], runtime := [], bullets := [], asteroids := [],
      clients := [], power_ups := [], current_wave := 1, wave_countdown := none }
  let (asts, s1, rng') := spawn_asteroids ASTEROID_COUNT s0 rng
  ({ s1 with asteroids := asts }, rng')

/-- The connection handshake of `handle_client` (main.rs:279-285, 299): the
client is assigned `s.next_id`, the counter is bumped, the id is registered,
and `Welcome { id, tick_hz: TICK_HZ }` is sent.  Returns (id, tick_hz). -/
def connectClient (s : ServerState) : (ℕ × ℕ) × ServerState :=
  ((s.next_id, TICK_HZ),
   { s with next_id := s.next_id + 1, clients := s.clients ++ [s.next_id] })

/-- `ClientMsg::Join` handling (main.rs:310-325): if the connection's id has
no player yet, spawn one plus a runtime record with spawn invincibility. -/
def joinPlayer (s : ServerState) (id : ℕ) (now : ℚ) (rng : Rng) :
    ServerState × Rng :=
  if (lookupPlayer s.players id).isSome then (s, rng)
  else
    let (player, rng') := spawn_player id s.asteroids rng
    let rt := { PlayerRuntime.new now with
                  invincible_until := some (now + SPAWN_INVINCIBILITY_SECS) }
    ({ s with players := s.players ++ [player], runtime := s.runtime ++ [(id, rt)] },
     rng')

/-! ## server/src/main.rs: the tick, phase by phase (main.rs:373-760) -/

/-- Collect the ids whose respawn timer has expired (main.rs:377-386). -/
def respawnDue (rts : List (ℕ × PlayerRuntime)) (now : ℚ) : List ℕ :=
  (rts.filter fun e => e.2.respawn_at.elim false fun t => decide (now ≥ t)).map (·.1)

/-- Clear the expired respawn timers (main.rs:377-386, `rt.respawn_at = None`). -/
def clearRespawnDue (rts : List (ℕ × PlayerRuntime)) (now : ℚ) :
    List (ℕ × PlayerRuntime) :=
  rts.map fun e =>
    if e.2.respawn_at.elim false fun t => decide (now ≥ t) then
      (e.1, { e.2 with respawn_at := none })
    else e

/-- Respawn one due player (main.rs:389-401): fresh safe position, zero
velocity, alive again, fresh spawn-invincibility window. -/
def respawnStep (asteroids : List AsteroidState) (now : ℚ)
    (acc : List PlayerState × List (ℕ × PlayerRuntime) × Rng) (pid : ℕ) :
    List PlayerState × List (ℕ × PlayerRuntime) × Rng :=
  match lookupPlayer acc.1 pid with
  | none => acc
  | some _ =>
    let fs := find_safe_spawn_position asteroids acc.2.2 50
    let ps := updatePlayer acc.1 pid fun p =>
      { p with pos := fs.1, vel := ⟨0, 0⟩, alive := true, respawn_timer := none }
    let rts := updateRt acc.2.1 pid fun rt =>
      { rt with invincible_until := some (now + SPAWN_INVINCIBILITY_SECS) }
    (ps, rts, fs.2)

/-- Respawn processing (main.rs:377-401). -/
def respawnPhase (s : ServerState) (now : ℚ) (rng : Rng) : ServerState × Rng :=
  let due := respawnDue s.runtime now
  let rts0 := clearRespawnDue s.runtime now
  let (ps, rts, rng') := due.foldl (respawnStep s.asteroids now) (s.players, rts0, rng)
  ({ s with players := ps, runtime := rts }, rng')

/-- Per-player broadcast-field synchronisation (main.rs:404-414). -/
def syncPlayer (rts : List (ℕ × PlayerRuntime)) (now : ℚ) (p : PlayerState) :
    PlayerState :=
  match lookupRt rts p.id with
  | none => p
  | some rt =>
    let p' := { p with effects := rt.get_effects now, combo := rt.combo,
                       kill_streak := rt.kill_streak }
    match rt.respawn_at with
    | some t => if t > now then { p' with respawn_timer := some (t - now) } else p'
    | none => p'

/-- Broadcast-field synchronisation from runtime to player state
(main.rs:403-415). -/
def syncPhase (s : ServerState) (now : ℚ) : ServerState :=
  { s with players := s.players.map (syncPlayer s.runtime now) }

/-- Truncating (round-toward-zero) integer part, the semantics of Rust's
float remainder and `as`-casts. -/
def fTrunc (q : ℚ) : ℤ := if 0 ≤ q then ⌊q⌋ else -⌊-q⌋

/-- Rust `%` on floats: remainder with the sign of the dividend. -/
def fmod (a b : ℚ) : ℚ := a - b * fTrunc (a / b)

/-- Accumulator of the movement-and-shooting loop (main.rs:417-517). -/
structure MoveAcc where
  players : List PlayerState
  runtime : List (ℕ × PlayerRuntime)
  bullets : List BulletRuntime
  next_id : ℕ

/-- The movement part of one player's step (main.rs:446-466): rotation,
thrust along the updated heading, drag, speed cap with direction preserved,
wrapped position integration. -/
def movedPlayer (env : Env) (now dt : ℚ) (rt : PlayerRuntime)
    (player : PlayerState) : PlayerState :=
  let angle' := player.angle + (rt.input.rotate : ℚ) * ROT_SPEED * dt
  let thrust_mult := if rt.has_speed_boost now then SPEED_BOOST_MULT else 1
  let vel1 :=
    if rt.input.thrust then
      player.vel.add ((Vec2.mk (env.cos angle') (env.sin angle')).scale
        (THRUST * thrust_mult * dt))
    else player.vel
  let vel2 := vel1.scale DRAG
  let max_speed := if rt.has_speed_boost now then MAX_SPEED * SPEED_BOOST_MULT
                   else MAX_SPEED
  let speed_sq := vel2.x * vel2.x + vel2.y * vel2.y
  let vel3 :=
    if speed_sq > max_speed * max_speed then vel2.scale (max_speed / env.sqrt speed_sq)
    else vel2
  { player with angle := angle',
                vel := vel3,
                pos := wrap_position (player.pos.add (vel3.scale dt)) }

/-- Bullet creation on a successful fire (main.rs:481-514): snap the heading
to the nearest of 8 sectors, then append 1 bullet (or 3 if triple-shot) with
ids drawn from the counter. -/
def fireFrom (env : Env) (pid : ℕ) (pos : Vec2) (angle' : ℚ) (triple : Bool)
    (bullets : List BulletRuntime) (nid : ℕ) : List BulletRuntime × ℕ :=
  let a0 := fmod angle' (2 * env.pi)
  let a := if a0 < 0 then a0 + 2 * env.pi else a0
  let sector := ⌊(a + env.pi / 8) / (env.pi / 4)⌋
  let snapped := (sector : ℚ) * (env.pi / 4)
  let angles := if triple then [snapped - 1/5, snapped, snapped + 1/5]
                else [snapped]
  angles.foldl
    (fun (bacc : List BulletRuntime × ℕ) angle =>
      (bacc.1 ++ [{ state := { id := bacc.2, owner_id := pid, pos := pos,
                               vel := (Vec2.mk (env.cos angle) (env.sin angle)).scale
                                 BULLET_SPEED },
                    ttl := BULLET_TTL }],
       bacc.2 + 1))
    (bullets, nid)

/-- One player's movement and shooting (main.rs:419-517): the movement
update of `movedPlayer`, then the cooldown-gated fire of `fireFrom`. -/
def moveStep (env : Env) (now dt : ℚ) (acc : MoveAcc) (pid : ℕ) : MoveAcc :=
  match lookupPlayer acc.players pid, lookupRt acc.runtime pid with
  | some player, some rt =>
    if !player.alive then acc
    else
      let m := movedPlayer env now dt rt player
      let players1 := updatePlayer acc.players pid fun p =>
        { p with angle := m.angle, vel := m.vel, pos := m.pos }
      if rt.input.fire then
        if now - rt.last_fire ≥ (if rt.has_rapid_fire now then
            FIRE_COOLDOWN * RAPID_FIRE_COOLDOWN_MULT else FIRE_COOLDOWN) then
          let runtime1 := updateRt acc.runtime pid fun r => { r with last_fire := now }
          let fired := fireFrom env pid m.pos m.angle (rt.has_triple_shot now)
            acc.bullets acc.next_id
          { players := players1, runtime := runtime1,
            bullets := fired.1, next_id := fired.2 }
        else { acc with players := players1 }
      else { acc with players := players1 }
  | _, _ => acc

/-- Player movement and shooting over the id list collected up front
(main.rs:417-418). -/
def movementPhase (s : ServerState) (now dt : ℚ) (env : Env) : ServerState :=
  let ids := s.players.map (·.id)
  let acc := ids.foldl (moveStep env now dt)
    ⟨s.players, s.runtime, s.bullets, s.next_id⟩
  { s with players := acc.players, runtime := acc.runtime,
           bullets := acc.bullets, next_id := acc.next_id }

/-- Bullet integration and culling (main.rs:519-530): move, decrement TTL,
then retain only bullets with positive TTL still inside the rectangle
(inclusive bounds, no wrapping). -/
def bulletUpdatePhase (s : ServerState) (dt : ℚ) : ServerState :=
  let moved := s.bullets.map fun b =>
    { b with ttl := b.ttl - dt,
             state := { b.state with pos := b.state.pos.add (b.state.vel.scale dt) } }
  { s with bullets := moved.filter fun b =>
      decide (b.ttl > 0 ∧ b.state.pos.x ≥ 0 ∧ b.state.pos.x ≤ WORLD_WIDTH ∧
              b.state.pos.y ≥ 0 ∧ b.state.pos.y ≤ WORLD_HEIGHT) }

/-- Asteroid integration (main.rs:532-535): constant velocity, wrapped. -/
def asteroidMovePhase (s : ServerState) (dt : ℚ) : ServerState :=
  { s with asteroids := s.asteroids.map fun a =>
      { a with pos := wrap_position (a.pos.add (a.vel.scale dt)) } }

/-- Power-up expiry (main.rs:537-538). -/
def powerUpExpiryPhase (s : ServerState) (now : ℚ) : ServerState :=
  { s with power_ups := s.power_ups.filter fun p => decide (now < p.expires_at) }

/-! ### Bullet-asteroid collision resolution (main.rs:540-644) -/

/-- The bullet-asteroid overlap test (main.rs:548-550). -/
def collidesBulletAst (b : BulletRuntime) (ast : AsteroidState) : Bool :=
  decide (distance_squared_wrapped b.state.pos ast.pos <
    (BULLET_RADIUS + asteroid_radius ast.size) *
      (BULLET_RADIUS + asteroid_radius ast.size))

/-- `base_points` by size class (main.rs:556-560). -/
def base_points (size : ℕ) : ℕ :=
  match size with
  | 1 => 100
  | 2 => 50
  | _ => 20

/-- The combo-window test (main.rs:564-566): a previous kill exists and lies
within `COMBO_TIMEOUT_SECS`. -/
def comboActive (rt : PlayerRuntime) (now : ℚ) : Bool :=
  rt.last_kill_time.elim false fun t => decide (now - t < COMBO_TIMEOUT_SECS)

/-- The combo update of one asteroid kill (main.rs:568-573): increment
capped at `MAX_COMBO` inside the window, else reset to 1; stamp the kill
time. -/
def comboUpdate (rt : PlayerRuntime) (now : ℚ) : PlayerRuntime :=
  { rt with
      combo := if comboActive rt now then min (rt.combo + 1) MAX_COMBO else 1,
      last_kill_time := some now }

/-- One split child (main.rs:587-613): `i` is the loop index (0 or 1),
`spread` and `speedMult` the two random draws of that iteration, `cid` the
allocated id. -/
def splitChild (env : Env) (ast : AsteroidState) (i : ℕ) (spread speedMult : ℚ)
    (cid : ℕ) : AsteroidState :=
  let parent_angle := env.atan2 ast.vel.y ast.vel.x
  let new_angle := parent_angle + spread +
    (if i == 0 then env.pi / 4 else -(env.pi / 4))
  let parent_speed := env.sqrt (ast.vel.x * ast.vel.x + ast.vel.y * ast.vel.y)
  let new_speed := parent_speed * speedMult + 1
  let offset_angle := if i == 0 then new_angle else new_angle + env.pi
  { id := cid
    pos := wrap_position (ast.pos.add ⟨env.cos offset_angle, env.sin offset_angle⟩)
    vel := ⟨env.cos new_angle * new_speed, env.sin new_angle * new_speed⟩
    size := ast.size - 1 }

/-- Accumulator of the bullet-asteroid scan (main.rs:541-544 plus the
containers mutated during the scan: runtime, players, power-ups, id counter,
rng). -/
structure HitAcc where
  bullets_to_remove : List ℕ
  asteroids_to_remove : List ℕ
  new_asteroids : List AsteroidState
  asteroid_kills : List (ℕ × ℕ × Vec2 × Vec2)
  runtime : List (ℕ × PlayerRuntime)
  players : List PlayerState
  power_ups : List PowerUpRuntime
  next_id : ℕ
  rng : Rng

/-- Resolution of one bullet-asteroid hit (main.rs:551-637): record the pair,
award combo-multiplied points to the shooter, split the asteroid into two
children when its size class is above the smallest, and possibly drop a
power-up. -/
def processHit (env : Env) (now : ℚ) (acc : HitAcc) (b : BulletRuntime)
    (ast : AsteroidState) : HitAcc :=
  let acc1 := { acc with
    bullets_to_remove := acc.bullets_to_remove ++ [b.state.id]
    asteroids_to_remove := acc.asteroids_to_remove ++ [ast.id]
    asteroid_kills := acc.asteroid_kills ++
      [(b.state.owner_id, ast.id, ast.pos, ast.vel)] }
  let acc2 :=
    match lookupRt acc1.runtime b.state.owner_id with
    | none => acc1
    | some rt =>
      let rt' := comboUpdate rt now
      let points := base_points ast.size * rt'.combo
      { acc1 with
          runtime := updateRt acc1.runtime b.state.owner_id fun r => comboUpdate r now
          players := updatePlayer acc1.players b.state.owner_id fun p =>
            { p with score := p.score + points, combo := rt'.combo } }
  let acc3 :=
    if 1 < ast.size then
      let (spread0, r1) := acc2.rng.draw
      let (mult0, r2) := r1.draw
      let c0 := splitChild env ast 0 spread0 mult0 acc2.next_id
      let (spread1, r3) := r2.draw
      let (mult1, r4) := r3.draw
      let c1 := splitChild env ast 1 spread1 mult1 (acc2.next_id + 1)
      { acc2 with new_asteroids := acc2.new_asteroids ++ [c0, c1],
                  next_id := acc2.next_id + 2, rng := r4 }
    else acc2
  let (chance, r5) := acc3.rng.draw
  if chance < POWERUP_SPAWN_CHANCE then
    let (kindSel, r6) := r5.drawNat
    let kind : PowerUpKind :=
      match kindSel with
      | 0 => .Shield
      | 1 => .RapidFire
      | 2 => .TripleShot
      | _ => .SpeedBoost
    { acc3 with
        power_ups := acc3.power_ups ++
          [{ state := { id := acc3.next_id, pos := ast.pos, kind := kind },
             expires_at := now + POWERUP_TTL_SECS }]
        next_id := acc3.next_id + 1, rng := r6 }
  else { acc3 with rng := r5 }

/-- One bullet of the outer scan (main.rs:546-639): the inner loop breaks at
the first overlapping asteroid of the (unmutated) asteroid list. -/
def processBullet (env : Env) (now : ℚ) (asteroids : List AsteroidState)
    (acc : HitAcc) (b : BulletRuntime) : HitAcc :=
  match asteroids.find? (fun ast => collidesBulletAst b ast) with
  | some ast => processHit env now acc b ast
  | none => acc

/-- The full bullet-asteroid scan (main.rs:546-640), before any removal. -/
def collectHits (s : ServerState) (now : ℚ) (rng : Rng) (env : Env) : HitAcc :=
  s.bullets.foldl (processBullet env now s.asteroids)
    ⟨[], [], [], [], s.runtime, s.players, s.power_ups, s.next_id, rng⟩

/-- The bullet-asteroid phase (main.rs:540-644): scan first, then apply the
removals by id and append the split children. -/
def bulletAsteroidPhase (s : ServerState) (now : ℚ) (rng : Rng) (env : Env) :
    ServerState × Rng :=
  let acc := collectHits s now rng env
  ({ s with
      runtime := acc.runtime
      players := acc.players
      power_ups := acc.power_ups
      next_id := acc.next_id
      bullets := s.bullets.filter fun b => decide (b.state.id ∉ acc.bullets_to_remove)
      asteroids := (s.asteroids.filter fun a => decide (a.id ∉ acc.asteroids_to_remove))
        ++ acc.new_asteroids },
   acc.rng)

/-! ### Power-up pickup, deaths, PvP, waves (main.rs:646-760) -/

/-- Entering a timed effect on pickup (main.rs:658-664). -/
def applyPowerUp (kind : PowerUpKind) (effect_end : ℚ) (rt : PlayerRuntime) :
    PlayerRuntime :=
  match kind with
  | .Shield => { rt with shield_until := some effect_end }
  | .RapidFire => { rt with rapid_fire_until := some effect_end }
  | .TripleShot => { rt with triple_shot_until := some effect_end }
  | .SpeedBoost => { rt with speed_boost_until := some effect_end }

/-- Accumulator of the pickup scan (main.rs:647, 657). -/
structure PickupAcc where
  to_remove : List ℕ
  runtime : List (ℕ × PlayerRuntime)

/-- One player against one power-up (main.rs:652-666).  Power-ups are only
removed after the full scan, so a power-up can be claimed by several players
in the same tick. -/
def pickupStep (now : ℚ) (pid : ℕ) (ppos : Vec2) (acc : PickupAcc)
    (pu : PowerUpRuntime) : PickupAcc :=
  if decide (distance_squared_wrapped ppos pu.state.pos <
      (PLAYER_RADIUS + POWERUP_RADIUS) * (PLAYER_RADIUS + POWERUP_RADIUS)) then
    { to_remove := acc.to_remove ++ [pu.state.id]
      runtime := updateRt acc.runtime pid
        (applyPowerUp pu.state.kind (now + POWERUP_DURATION_SECS)) }
  else acc

/-- The player-power-up phase (main.rs:646-670). -/
def powerUpPickupPhase (s : ServerState) (now : ℚ) : ServerState :=
  let acc := s.players.foldl
    (fun acc player =>
      if !player.alive then acc
      else s.power_ups.foldl (pickupStep now player.id player.pos) acc)
    ⟨[], s.runtime⟩
  { s with runtime := acc.runtime,
           power_ups := s.power_ups.filter fun p =>
             decide (p.state.id ∉ acc.to_remove) }

/-- Invincibility of a player id looked up in the runtime map, as tested at
main.rs:678-681 and main.rs:708-711 (`map_or(false, ..)`). -/
def isInvincibleIn (rts : List (ℕ × PlayerRuntime)) (pid : ℕ) (now : ℚ) : Bool :=
  (lookupRt rts pid).elim false fun rt => rt.is_invincible now

/-- Player-asteroid overlap with any live asteroid (main.rs:685-692). -/
def hitsAnyAsteroid (asteroids : List AsteroidState) (player : PlayerState) : Bool :=
  asteroids.any fun ast =>
    decide (distance_squared_wrapped player.pos ast.pos <
      (PLAYER_RADIUS + asteroid_radius ast.size) *
        (PLAYER_RADIUS + asteroid_radius ast.size))

/-- The player-asteroid kill list (main.rs:673-693): live, non-invincible,
overlapping players — collected before any death is applied. -/
def playersKilledByAsteroid (s : ServerState) (now : ℚ) : List ℕ :=
  (s.players.filter fun p =>
    p.alive && !(isInvincibleIn s.runtime p.id now) &&
      hitsAnyAsteroid s.asteroids p).map (·.id)

/-- `apply_death` (main.rs:762-782): kill the victim, apply the percentage
score penalty (the `as u32` cast truncates the non-negative product toward
zero, i.e. floor), start the respawn countdown, clear combo, streak and all
timed power-up effects. -/
def apply_death (s : ServerState) (victim_id : ℕ) (now : ℚ) : ServerState :=
  { s with
      players := updatePlayer s.players victim_id fun v =>
        { v with alive := false
                 score := (⌊(v.score : ℚ) * (1 - DEATH_PENALTY_PERCENT)⌋).toNat
                 respawn_timer := some RESPAWN_DELAY_SECS }
      runtime := updateRt s.runtime victim_id fun rt =>
        { rt with respawn_at := some (now + RESPAWN_DELAY_SECS), combo := 0,
                  kill_streak := 0, shield_until := none, rapid_fire_until := none,
                  triple_shot_until := none, speed_boost_until := none } }

/-- The player-asteroid phase (main.rs:672-698): collect, then apply. -/
def playerAsteroidPhase (s : ServerState) (now : ℚ) : ServerState :=
  (playersKilledByAsteroid s now).foldl (fun st pid => apply_death st pid now) s

/-- The first player a bullet hits in the PvP scan (main.rs:703-723): alive,
not the owner, not invincible, overlapping. -/
def pvpVictim (s : ServerState) (now : ℚ) (b : BulletRuntime) :
    Option PlayerState :=
  s.players.find? fun player =>
    player.alive && !(player.id == b.state.owner_id) &&
      !(isInvincibleIn s.runtime player.id now) &&
      decide (distance_squared_wrapped b.state.pos player.pos <
        (BULLET_RADIUS + PLAYER_RADIUS) * (BULLET_RADIUS + PLAYER_RADIUS))

/-- The PvP collection scan (main.rs:701-723): (victim, shooter) pairs and
the consumed bullets, collected before any death is applied. -/
def collectPvp (s : ServerState) (now : ℚ) : List (ℕ × ℕ) × List ℕ :=
  s.bullets.foldl
    (fun acc b =>
      match pvpVictim s now b with
      | some victim => (acc.1 ++ [(victim.id, b.state.owner_id)],
                        acc.2 ++ [b.state.id])
      | none => acc)
    ([], [])

/-- Application of one PvP kill (main.rs:726-742): the victim dies, the
shooter's streak is bumped and the flat 200 points plus any periodic streak
bonus are credited. -/
def pvpApplyKill (now : ℚ) (st : ServerState) (kill : ℕ × ℕ) : ServerState :=
  let st1 := apply_death st kill.1 now
  match lookupRt st1.runtime kill.2 with
  | none => st1
  | some rt =>
    let ks := rt.kill_streak + 1
    let streak_bonus := if ks % KILL_STREAK_BONUS_INTERVAL == 0 then
                          KILL_STREAK_BONUS_POINTS
                        else 0
    { st1 with
        runtime := updateRt st1.runtime kill.2 fun r =>
          { r with kill_streak := r.kill_streak + 1 }
        players := updatePlayer st1.players kill.2 fun shooter =>
          { shooter with score := shooter.score + 200 + streak_bonus,
                         kill_streak := ks } }

/-- The bullet-player phase (main.rs:700-743): collect, apply kills, then
remove the consumed bullets. -/
def pvpPhase (s : ServerState) (now : ℚ) : ServerState :=
  let col := collectPvp s now
  let st := col.1.foldl (pvpApplyKill now) s
  { st with bullets := st.bullets.filter fun b => decide (b.state.id ∉ col.2) }

/-- The wave scheduler (main.rs:745-759): once the asteroid set is empty,
start the countdown; once the countdown instant has passed, bump the wave
number and spawn `ASTEROID_COUNT + (wave-1)*ASTEROIDS_PER_WAVE` asteroids
capped at 100. -/
def wavePhase (s : ServerState) (now : ℚ) (rng : Rng) : ServerState × Rng :=
  if s.asteroids.isEmpty then
    match s.wave_countdown with
    | none => ({ s with wave_countdown := some (now + WAVE_COUNTDOWN_SECS) }, rng)
    | some countdown_end =>
      if now ≥ countdown_end then
        let wave' := s.current_wave + 1
        let count := ASTEROID_COUNT + (wave' - 1) * ASTEROIDS_PER_WAVE
        let (asts, s', rng') :=
          spawn_asteroids (min count 100) { s with current_wave := wave' } rng
        ({ s' with asteroids := asts, wave_countdown := none }, rng')
      else (s, rng)
  else (s, rng)

/-- `tick` (main.rs:373-760): the eleven phases in source order. -/
def tick (s : ServerState) (now dt : ℚ) (rng : Rng) (env : Env) :
    ServerState × Rng :=
  let r1 := respawnPhase s now rng
  let s2 := syncPhase r1.1 now
  let s3 := movementPhase s2 now dt env
  let s4 := bulletUpdatePhase s3 dt
  let s5 := asteroidMovePhase s4 dt
  let s6 := powerUpExpiryPhase s5 now
  let r7 := bulletAsteroidPhase s6 now r1.2 env
  let s8 := powerUpPickupPhase r7.1 now
  let s9 := playerAsteroidPhase s8 now
  let s10 := pvpPhase s9 now
  wavePhase s10 now r7.2

/-- First-hit asteroid of a bullet in the scan (main.rs:547-550 with the
`break` at main.rs:637), as a standalone observation used by the theorems. -/
def bulletHit (asteroids : List AsteroidState) (b : BulletRuntime) :
    Option AsteroidState :=
  asteroids.find? fun ast => collidesBulletAst b ast

/-- A fixed random stream for concrete evaluations: every draw is 0. -/
def rng0 : Rng := ⟨fun _ => 0, 0⟩

/-- A fixed environment for concrete evaluations: every transcendental
function returns 0 and `π` is 0 (their values never steer any claim). -/
def env0 : Env := ⟨fun _ => 0, fun _ => 0, fun _ => 0, fun _ _ => 0, 0⟩

/-- A concrete state for witnesses: no asteroids alive, wave countdown
armed at instant 0, wave number 1. -/
def cs8 : ServerState :=
  { next_id := 1, players := [], runtime := [], bullets := [], asteroids := [],
    clients := [], power_ups := [], current_wave := 1, wave_countdown := some 0 }

/-- A concrete one-player record for witnesses: player 1 alive at the
origin. -/
def cp9 : PlayerState :=
  { id := 1
    pos := ⟨0, 0⟩
    vel := ⟨0, 0⟩
    angle := 0
    alive := true
    score := 0
    combo := 0
    kill_streak := 0
    respawn_timer := none
    effects := PlayerEffects.default }

/-- A concrete runtime record for witnesses: latest buffered input
`rotate = -1`, nothing else set. -/
def crt9 : PlayerRuntime :=
  { PlayerRuntime.new 0 with
      input := { thrust := false, rotate := -1, fire := false } }

/-- A concrete one-player server state for witnesses. -/
def cs9 : ServerState :=
  { next_id := 2
    players := [cp9]
    runtime := [(1, crt9)]
    bullets := []
    asteroids := []
    clients := [1]
    power_ups := []
    current_wave := 1
    wave_countdown := none }

/-- A concrete size-2 asteroid for the double-hit counterexample. -/
def cexAst : AsteroidState := { id := 1, pos := ⟨10, 10⟩, vel := ⟨1, 0⟩, size := 2 }

/-- A concrete bullet at the asteroid's position, owner 7. -/
def cexBullet (bid : ℕ) : BulletRuntime :=
  { state := { id := bid, owner_id := 7, pos := ⟨10, 10⟩, vel := ⟨0, 0⟩ }, ttl := 1 }

/-- A concrete state in which two distinct bullets overlap the same single
size-2 asteroid in the same tick. -/
def cexC3 : ServerState :=
  { next_id := 200
    players := []
    runtime := []
    bullets := [cexBullet 100, cexBullet 101]
    asteroids := [cexAst]
    clients := []
    power_ups := []
    current_wave := 1
    wave_countdown := none }

/-- C1's protection predicate: the player id has a runtime record whose
`is_invincible` test (spawn-invincibility or shield unexpired) passes at the
tick instant. -/
def ProtectedIn (rts : List (ℕ × PlayerRuntime)) (pid : ℕ) (now : ℚ) : Prop :=
  ∃ rt, lookupRt rts pid = some rt ∧ rt.is_invincible now = true

/-- Every player record carrying this id is alive. -/
def AliveIn (ps : List PlayerState) (pid : ℕ) : Prop :=
  ∀ p ∈ ps, p.id = pid → p.alive = true

/-- `sc` is a lower bound on the score of every player record carrying this
id. -/
def ScoreGeIn (ps : List PlayerState) (pid : ℕ) (sc : ℕ) : Prop :=
  ∀ p ∈ ps, p.id = pid → sc ≤ p.score

instance (ps : List PlayerState) (pid : ℕ) : Decidable (AliveIn ps pid) := by
  unfold AliveIn
  infer_instance

instance (ps : List PlayerState) (pid sc : ℕ) : Decidable (ScoreGeIn ps pid sc) := by
  unfold ScoreGeIn
  infer_instance

/-- All live-entity ids of a state: the connected-client ids (a player
record deliberately shares its client's id, see `joinPlayer`), bullet ids,
asteroid ids and power-up ids. -/
def idsAll (s : ServerState) : List ℕ :=
  s.clients ++ s.bullets.map (·.state.id) ++ s.asteroids.map (·.id)
    ++ s.power_ups.map (·.state.id)

/-- C10's id-freshness invariant: all live ids are pairwise distinct and
below the shared `next_id` counter, and every player record's id is one of
the client ids. -/
def IdInv (s : ServerState) : Prop :=
  (idsAll s).Nodup ∧ (∀ i ∈ idsAll s, i < s.next_id) ∧
    ∀ p ∈ s.players, p.id ∈ s.clients

instance (s : ServerState) : Decidable (IdInv s) := by
  unfold IdInv
  infer_instance

/-- A concrete runtime record whose shield is active until instant 10. -/
def crt1 : PlayerRuntime :=
  { PlayerRuntime.new 0 with shield_until := some 10 }

/-- A concrete player overlapping the counterexample asteroid's position. -/
def cp1 : PlayerState :=
  { id := 1
    pos := ⟨10, 10⟩
    vel := ⟨0, 0⟩
    angle := 0
    alive := true
    score := 100
    combo := 0
    kill_streak := 0
    respawn_timer := none
    effects := PlayerEffects.default }

/-- A concrete state for the C1 witness: the shield-protected player 1
overlaps both a live asteroid and an enemy bullet (owner 2) in the same
tick. -/
def cs1 : ServerState :=
  { next_id := 60
    players := [cp1]
    runtime := [(1, crt1)]
    bullets := [{ state := { id := 20, owner_id := 2, pos := ⟨10, 10⟩,
                             vel := ⟨0, 0⟩ }, ttl := 1 }]
    asteroids := [{ id := 30, pos := ⟨10, 10⟩, vel := ⟨0, 0⟩, size := 1 }]
    clients := [1, 2]
    power_ups := []
    current_wave := 1
    wave_countdown := none }

/-- One operation's id-discipline (C10): the shared counter never decreases
and — whenever the id invariant held before — it holds after, with every
newly present live id at least the old counter value. -/
def IdExtends (A B : ServerState) : Prop :=
  A.next_id ≤ B.next_id ∧
    (IdInv A → IdInv B ∧ ∀ i ∈ idsAll B, i ∉ idsAll A → A.next_id ≤ i)

/-! # Theorems -/

/-! ## C7: wrap_position range and idempotence -/

theorem wrap_axis_mem (v e : ℚ) (_he : 0 < e) (h1 : -e ≤ v) (h2 : v < 2 * e) :
    0 ≤ wrap_axis v e ∧ wrap_axis v e < e := by
  simp only [wrap_axis]
  split_ifs <;> constructor <;> linarith

theorem wrap_axis_id (v e : ℚ) (h1 : 0 ≤ v) (h2 : v < e) : wrap_axis v e = v := by
  simp only [wrap_axis]
  split_ifs <;> linarith

/-- C7, counterexample: at `p = (-500, 0)` — a coordinate whose magnitude
exceeds a full axis extent — `wrap_position p = (-260, 0)` is outside
`[0, 240)` and `wrap_position` is not idempotent there, refuting the claim
as stated. -/
theorem c7_counterexample :
    ¬ (inWorld (wrap_position ⟨-500, 0⟩) ∧
        wrap_position (wrap_position ⟨-500, 0⟩) = wrap_position ⟨-500, 0⟩) := by
  norm_num [inWorld, wrap_position, wrap_axis, WORLD_WIDTH, WORLD_HEIGHT]

/-- C7 (amended): `wrap_position` adds or subtracts each axis extent at most
once, so for every position whose coordinates lie within one extent of the
world rectangle (`-extent ≤ c < 2·extent` per axis) the result has both
coordinates in `[0, extent)`, and `wrap_position` is idempotent on all such
positions. -/
theorem c7_wrap_mem_idempotent (p : Vec2)
    (hx1 : -WORLD_WIDTH ≤ p.x) (hx2 : p.x < 2 * WORLD_WIDTH)
    (hy1 : -WORLD_HEIGHT ≤ p.y) (hy2 : p.y < 2 * WORLD_HEIGHT) :
    inWorld (wrap_position p) ∧
      wrap_position (wrap_position p) = wrap_position p := by
  have hw : (0 : ℚ) < WORLD_WIDTH := by norm_num [WORLD_WIDTH]
  have hh : (0 : ℚ) < WORLD_HEIGHT := by norm_num [WORLD_HEIGHT]
  obtain ⟨hx3, hx4⟩ := wrap_axis_mem p.x WORLD_WIDTH hw hx1 hx2
  obtain ⟨hy3, hy4⟩ := wrap_axis_mem p.y WORLD_HEIGHT hh hy1 hy2
  constructor
  · exact ⟨hx3, hx4, hy3, hy4⟩
  · show (⟨wrap_axis (wrap_axis p.x WORLD_WIDTH) WORLD_WIDTH,
          wrap_axis (wrap_axis p.y WORLD_HEIGHT) WORLD_HEIGHT⟩ : Vec2) = _
    rw [wrap_axis_id _ _ hx3 hx4, wrap_axis_id _ _ hy3 hy4]
    rfl

/-- C7 witness: the amended theorem applied at the concrete position
`(-10, 70)`. -/
theorem c7_witness :
    ((-WORLD_WIDTH ≤ (Vec2.mk (-10) 70).x) ∧ ((Vec2.mk (-10) 70).x < 2 * WORLD_WIDTH) ∧
      (-WORLD_HEIGHT ≤ (Vec2.mk (-10) 70).y) ∧ ((Vec2.mk (-10) 70).y < 2 * WORLD_HEIGHT)) ∧
    (inWorld (wrap_position ⟨-10, 70⟩) ∧
      wrap_position (wrap_position ⟨-10, 70⟩) = wrap_position ⟨-10, 70⟩) :=
  ⟨⟨by norm_num [WORLD_WIDTH], by norm_num [WORLD_WIDTH], by norm_num [WORLD_HEIGHT],
      by norm_num [WORLD_HEIGHT]⟩,
    c7_wrap_mem_idempotent ⟨-10, 70⟩ (by norm_num [WORLD_WIDTH])
      (by norm_num [WORLD_WIDTH]) (by norm_num [WORLD_HEIGHT])
      (by norm_num [WORLD_HEIGHT])⟩

/-! ## C5: death penalty -/

theorem death_score_eq (sc : ℕ) :
    ⌊(sc : ℚ) * (1 - DEATH_PENALTY_PERCENT)⌋ = ((85 * sc / 100 : ℕ) : ℤ) := by
  have h : (sc : ℚ) * (1 - DEATH_PENALTY_PERCENT)
      = (((85 * sc : ℕ) : ℤ) : ℚ) / ((100 : ℕ) : ℚ) := by
    simp only [DEATH_PENALTY_PERCENT]
    push_cast
    ring
  rw [h, Rat.floor_intCast_div_natCast]
  norm_cast

/-- C5: on every death, `apply_death` sets the victim's `alive` to false and
replaces the score by exactly `⌊score · (1 - 15%)⌋` (the `as u32` cast of the
non-negative product truncates toward zero), i.e. by `85·score/100` in
truncated integer arithmetic; the pre-cast value is never negative, the new
score never exceeds the previous one, and — the score being a natural number
shrunk at each death — it can never become negative after any number of
deaths. -/
theorem c5_death_penalty (s : ServerState) (vid : ℕ) (now : ℚ) :
    (∀ sc : ℕ, 0 ≤ ⌊(sc : ℚ) * (1 - DEATH_PENALTY_PERCENT)⌋ ∧
        (⌊(sc : ℚ) * (1 - DEATH_PENALTY_PERCENT)⌋).toNat = 85 * sc / 100 ∧
        85 * sc / 100 ≤ sc) ∧
    (apply_death s vid now).players =
      updatePlayer s.players vid fun v =>
        { v with alive := false, score := 85 * v.score / 100,
                 respawn_timer := some RESPAWN_DELAY_SECS } := by
  constructor
  · intro sc
    refine ⟨?_, ?_, ?_⟩
    · rw [death_score_eq]
      exact Int.ofNat_nonneg _
    · rw [death_score_eq]
      exact Int.toNat_natCast _
    · calc 85 * sc / 100 ≤ 100 * sc / 100 :=
            Nat.div_le_div_right (Nat.mul_le_mul_right sc (by norm_num))
        _ = sc := by rw [Nat.mul_div_cancel_left sc (by norm_num)]
  · show updatePlayer _ _ _ = _
    unfold updatePlayer
    apply List.map_congr_left
    intro p _
    cases hb : (p.id == vid) with
    | false => simp [hb]
    | true =>
      simp only [hb, if_pos]
      have hsc := death_score_eq p.score
      congr 1
      rw [hsc]
      exact Int.toNat_natCast _

/-! ## Map-access lemmas shared by several proofs -/

theorem lookupRt_cons (e : ℕ × PlayerRuntime) (t : List (ℕ × PlayerRuntime)) (qid : ℕ) :
    lookupRt (e :: t) qid =
      if (e.1 == qid) = true then some e.2 else lookupRt t qid := by
  by_cases h : (e.1 == qid) = true
  · simp [lookupRt, h]
  · simp [lookupRt, h]

theorem lookupPlayer_cons (p : PlayerState) (t : List PlayerState) (qid : ℕ) :
    lookupPlayer (p :: t) qid =
      if (p.id == qid) = true then some p else lookupPlayer t qid := by
  by_cases h : (p.id == qid) = true
  · simp [lookupPlayer, h]
  · simp [lookupPlayer, h]

theorem lookupRt_updateRt_self (rts : List (ℕ × PlayerRuntime)) (pid : ℕ)
    (f : PlayerRuntime → PlayerRuntime) :
    lookupRt (updateRt rts pid f) pid = (lookupRt rts pid).map f := by
  induction rts with
  | nil => rfl
  | cons e rest ih =>
    rw [show updateRt (e :: rest) pid f =
      (if (e.1 == pid) = true then (e.1, f e.2) else e) :: updateRt rest pid f from rfl]
    rw [lookupRt_cons, lookupRt_cons]
    by_cases h : (e.1 == pid) = true
    · simp [h]
    · simp [h, ih]

theorem lookupRt_updateRt_ne (rts : List (ℕ × PlayerRuntime)) (pid qid : ℕ)
    (f : PlayerRuntime → PlayerRuntime) (h : qid ≠ pid) :
    lookupRt (updateRt rts pid f) qid = lookupRt rts qid := by
  induction rts with
  | nil => rfl
  | cons e rest ih =>
    rw [show updateRt (e :: rest) pid f =
      (if (e.1 == pid) = true then (e.1, f e.2) else e) :: updateRt rest pid f from rfl]
    rw [lookupRt_cons, lookupRt_cons]
    by_cases he : (e.1 == pid) = true
    · have h1 : e.1 = pid := by simpa using he
      have h2 : (e.1 == qid) = false := by simp [h1, Ne.symm h]
      simp [he, h2, ih]
    · simp only [he, if_false]
      by_cases hq : (e.1 == qid) = true
      · simp [hq]
      · simp [hq, ih]

theorem lookupPlayer_updatePlayer_self (ps : List PlayerState) (pid : ℕ)
    (f : PlayerState → PlayerState) (hf : ∀ p, (f p).id = p.id) :
    lookupPlayer (updatePlayer ps pid f) pid = (lookupPlayer ps pid).map f := by
  induction ps with
  | nil => rfl
  | cons p rest ih =>
    rw [show updatePlayer (p :: rest) pid f =
      (if (p.id == pid) = true then f p else p) :: updatePlayer rest pid f from rfl]
    rw [lookupPlayer_cons, lookupPlayer_cons]
    by_cases h : (p.id == pid) = true
    · simp [h, hf p]
    · simp [h, ih]

theorem lookupPlayer_updatePlayer_ne (ps : List PlayerState) (pid qid : ℕ)
    (f : PlayerState → PlayerState) (hf : ∀ p, (f p).id = p.id) (h : qid ≠ pid) :
    lookupPlayer (updatePlayer ps pid f) qid = lookupPlayer ps qid := by
  induction ps with
  | nil => rfl
  | cons p rest ih =>
    rw [show updatePlayer (p :: rest) pid f =
      (if (p.id == pid) = true then f p else p) :: updatePlayer rest pid f from rfl]
    rw [lookupPlayer_cons, lookupPlayer_cons]
    by_cases hp : (p.id == pid) = true
    · have h1 : p.id = pid := by simpa using hp
      have h2 : (p.id == qid) = false := by simp [h1, Ne.symm h]
      have h3 : ((f p).id == qid) = false := by simp [hf p, h1, Ne.symm h]
      simp [hp, h2, h3, ih]
    · simp only [hp, if_false]
      by_cases hq : (p.id == qid) = true
      · simp [hq]
      · simp [hq, ih]

theorem updatePlayer_ids (ps : List PlayerState) (pid : ℕ)
    (f : PlayerState → PlayerState) (hf : ∀ p, (f p).id = p.id) :
    (updatePlayer ps pid f).map (·.id) = ps.map (·.id) := by
  induction ps with
  | nil => rfl
  | cons p rest ih =>
    simp only [updatePlayer, List.map_cons] at ih ⊢
    rw [ih]
    by_cases h : (p.id == pid) = true
    · simp [h, hf p]
    · simp [h]

theorem updateRt_keys (rts : List (ℕ × PlayerRuntime)) (pid : ℕ)
    (f : PlayerRuntime → PlayerRuntime) :
    (updateRt rts pid f).map (·.1) = rts.map (·.1) := by
  induction rts with
  | nil => rfl
  | cons e rest ih =>
    simp only [updateRt, List.map_cons] at ih ⊢
    rw [ih]
    by_cases h : (e.1 == pid) = true
    · simp [h]
    · simp [h]

/-! ## C4: the combo rule -/

theorem processHit_runtime (env : Env) (now : ℚ) (acc : HitAcc)
    (b : BulletRuntime) (ast : AsteroidState) :
    (processHit env now acc b ast).runtime =
      match lookupRt acc.runtime b.state.owner_id with
      | none => acc.runtime
      | some _ => updateRt acc.runtime b.state.owner_id fun r => comboUpdate r now := by
  simp only [processHit, Rng.draw, Rng.drawNat]
  cases lookupRt acc.runtime b.state.owner_id with
  | none =>
    split_ifs <;> rfl
  | some rt =>
    split_ifs <;> rfl

theorem comboUpdate_combo (rt : PlayerRuntime) (now : ℚ) :
    (comboUpdate rt now).combo =
      if comboActive rt now then min (rt.combo + 1) MAX_COMBO else 1 := rfl

theorem comboUpdate_last_kill (rt : PlayerRuntime) (now : ℚ) :
    (comboUpdate rt now).last_kill_time = some now := rfl

theorem comboActive_comboUpdate (rt : PlayerRuntime) (now now' : ℚ) :
    comboActive (comboUpdate rt now) now' =
      decide (now' - now < COMBO_TIMEOUT_SECS) := by
  simp [comboActive, comboUpdate]

/-- C4: the combo update applied on each asteroid kill (main.rs:562-582,
transcribed as `comboUpdate` and invoked on the shooter's runtime record by
`processHit`) always lands in `[1, MAX_COMBO]`; it increments the combo
capped at `MAX_COMBO = 10` when the shooter's previous kill lies within the
`COMBO_TIMEOUT_SECS` window, and resets it to 1 otherwise (no previous kill,
or window elapsed); hence three kills inside the window yield combo values
1, 2, 3, and a fourth kill after the window elapses resets the combo to 1. -/
theorem c4_combo_rule :
    (∀ (rt : PlayerRuntime) (now : ℚ),
        1 ≤ (comboUpdate rt now).combo ∧ (comboUpdate rt now).combo ≤ MAX_COMBO) ∧
    (∀ (rt : PlayerRuntime) (now t : ℚ), rt.last_kill_time = some t →
        now - t < COMBO_TIMEOUT_SECS →
        (comboUpdate rt now).combo = min (rt.combo + 1) MAX_COMBO) ∧
    (∀ (rt : PlayerRuntime) (now : ℚ),
        (rt.last_kill_time = none ∨
          ∃ t, rt.last_kill_time = some t ∧ COMBO_TIMEOUT_SECS ≤ now - t) →
        (comboUpdate rt now).combo = 1) ∧
    (∀ (env : Env) (now : ℚ) (acc : HitAcc) (b : BulletRuntime)
        (ast : AsteroidState) (rt : PlayerRuntime),
        lookupRt acc.runtime b.state.owner_id = some rt →
        lookupRt (processHit env now acc b ast).runtime b.state.owner_id =
          some (comboUpdate rt now)) ∧
    (∀ t1 t2 t3 t4 : ℚ,
        t2 - t1 < COMBO_TIMEOUT_SECS → t3 - t2 < COMBO_TIMEOUT_SECS →
        COMBO_TIMEOUT_SECS ≤ t4 - t3 →
        (comboUpdate (PlayerRuntime.new 0) t1).combo = 1 ∧
        (comboUpdate (comboUpdate (PlayerRuntime.new 0) t1) t2).combo = 2 ∧
        (comboUpdate (comboUpdate (comboUpdate (PlayerRuntime.new 0) t1) t2)
            t3).combo = 3 ∧
        (comboUpdate (comboUpdate (comboUpdate (comboUpdate
            (PlayerRuntime.new 0) t1) t2) t3) t4).combo = 1) := by
  refine ⟨?_, ?_, ?_, ?_, ?_⟩
  · intro rt now
    rw [comboUpdate_combo]
    constructor
    · split_ifs with h
      · exact le_min (Nat.succ_le_succ (Nat.zero_le _)) (by norm_num [MAX_COMBO])
      · exact le_refl 1
    · split_ifs with h
      · exact min_le_right _ _
      · norm_num [MAX_COMBO]
  · intro rt now t ht hwin
    have ha : comboActive rt now = true := by
      simp [comboActive, ht, hwin]
    rw [comboUpdate_combo, ha]
    rfl
  · intro rt now h
    have ha : comboActive rt now = false := by
      rcases h with h | ⟨t, ht, hout⟩
      · simp [comboActive, h]
      · simp [comboActive, ht, not_lt.mpr hout]
    rw [comboUpdate_combo, ha]
    rfl
  · intro env now acc b ast rt h
    rw [processHit_runtime, h, lookupRt_updateRt_self, h, Option.map_some']
  · intro t1 t2 t3 t4 h12 h23 h34
    have hA : comboActive (PlayerRuntime.new 0) t1 = false := rfl
    have k1 : (comboUpdate (PlayerRuntime.new 0) t1).combo = 1 := by
      rw [comboUpdate_combo, hA]
      rfl
    have k2 : (comboUpdate (comboUpdate (PlayerRuntime.new 0) t1) t2).combo = 2 := by
      rw [comboUpdate_combo, comboActive_comboUpdate]
      rw [decide_eq_true h12, if_pos rfl, k1]
      norm_num [MAX_COMBO]
    have k3 : (comboUpdate (comboUpdate (comboUpdate (PlayerRuntime.new 0) t1) t2)
        t3).combo = 3 := by
      rw [comboUpdate_combo, comboActive_comboUpdate]
      rw [decide_eq_true h23, if_pos rfl, k2]
      norm_num [MAX_COMBO]
    have k4 : (comboUpdate (comboUpdate (comboUpdate (comboUpdate
        (PlayerRuntime.new 0) t1) t2) t3) t4).combo = 1 := by
      rw [comboUpdate_combo, comboActive_comboUpdate]
      rw [decide_eq_false (not_lt.mpr h34)]
      simp
    exact ⟨k1, k2, k3, k4⟩

/-- C4 witness: the combo scenario at the concrete kill times 0, 1, 2, 6
(gaps 1, 1 inside the 3-second window, then 4 outside it), applied through
the theorem. -/
theorem c4_witness :
    ((1 : ℚ) - 0 < COMBO_TIMEOUT_SECS) ∧ ((2 : ℚ) - 1 < COMBO_TIMEOUT_SECS) ∧
    (COMBO_TIMEOUT_SECS ≤ (6 : ℚ) - 2) ∧
    ((comboUpdate (PlayerRuntime.new 0) 0).combo = 1 ∧
      (comboUpdate (comboUpdate (PlayerRuntime.new 0) 0) 1).combo = 2 ∧
      (comboUpdate (comboUpdate (comboUpdate (PlayerRuntime.new 0) 0) 1)
          2).combo = 3 ∧
      (comboUpdate (comboUpdate (comboUpdate (comboUpdate
          (PlayerRuntime.new 0) 0) 1) 2) 6).combo = 1) :=
  ⟨by norm_num [COMBO_TIMEOUT_SECS], by norm_num [COMBO_TIMEOUT_SECS],
    by norm_num [COMBO_TIMEOUT_SECS],
    c4_combo_rule.2.2.2.2 0 1 2 6 (by norm_num [COMBO_TIMEOUT_SECS])
      (by norm_num [COMBO_TIMEOUT_SECS]) (by norm_num [COMBO_TIMEOUT_SECS])⟩

/-! ## C8: wave progression -/

theorem spawn_asteroids_length (n : ℕ) (s : ServerState) (rng : Rng) :
    (spawn_asteroids n s rng).1.length = n := by
  induction n generalizing s rng with
  | zero => rfl
  | succ m ih =>
    simp only [spawn_asteroids, Rng.draw, Rng.drawNat]
    simpa using ih _ _

theorem spawn_asteroids_state (n : ℕ) (s : ServerState) (rng : Rng) :
    (spawn_asteroids n s rng).2.1 = { s with next_id := s.next_id + n } := by
  induction n generalizing s rng with
  | zero => simp [spawn_asteroids]
  | succ m ih =>
    simp only [spawn_asteroids, next_entity_id, Rng.draw, Rng.drawNat]
    rw [ih]
    congr 1
    show s.next_id + 1 + m = s.next_id + (m + 1)
    omega

/-- C8: the wave scheduler.  While asteroids are alive it does nothing.  The
instant the live asteroid set is empty with no countdown armed, it arms a
countdown of exactly `WAVE_COUNTDOWN_SECS` and spawns nothing; while the
armed countdown has not fully elapsed it does nothing; once the countdown
instant has passed, the wave number increments by exactly 1 and exactly
`min (ASTEROID_COUNT + (new_wave - 1) * ASTEROIDS_PER_WAVE) 100` asteroids,
i.e. `min (50 + 5·(new_wave - 1)) 100`, are spawned. -/
theorem c8_wave_progression (s : ServerState) (now : ℚ) (rng : Rng) :
    (s.asteroids = [] → s.wave_countdown = none →
      (wavePhase s now rng).1.wave_countdown = some (now + WAVE_COUNTDOWN_SECS) ∧
      (wavePhase s now rng).1.asteroids = [] ∧
      (wavePhase s now rng).1.current_wave = s.current_wave) ∧
    (∀ tEnd : ℚ, s.asteroids = [] → s.wave_countdown = some tEnd → now < tEnd →
      (wavePhase s now rng).1 = s) ∧
    (∀ tEnd : ℚ, s.asteroids = [] → s.wave_countdown = some tEnd → tEnd ≤ now →
      (wavePhase s now rng).1.current_wave = s.current_wave + 1 ∧
      (wavePhase s now rng).1.asteroids.length =
        min (ASTEROID_COUNT + ((s.current_wave + 1) - 1) * ASTEROIDS_PER_WAVE) 100 ∧
      (wavePhase s now rng).1.wave_countdown = none) ∧
    (s.asteroids ≠ [] → (wavePhase s now rng).1 = s) := by
  refine ⟨?_, ?_, ?_, ?_⟩
  · intro hast hcd
    simp [wavePhase, hast, hcd]
  · intro tEnd hast hcd hlt
    simp [wavePhase, hast, hcd, not_le.mpr hlt]
  · intro tEnd hast hcd hge
    have hb : s.asteroids.isEmpty = true := by simp [hast]
    simp only [wavePhase, hb, if_true, hcd, ge_iff_le, hge, if_pos]
    refine ⟨?_, ?_, ?_⟩
    · rw [spawn_asteroids_state]
    · exact spawn_asteroids_length _ _ _
    · trivial
  · intro hne
    have hb : s.asteroids.isEmpty = false := by
      cases h : s.asteroids with
      | nil => exact absurd h hne
      | cons a t => simp [h]
    simp [wavePhase, hb]

/-- C8 witness: the spawn arm of the theorem at the concrete state `cs8`
(no asteroids, countdown armed at instant 0) at tick time `now = 5`. -/
theorem c8_witness :
    (cs8.asteroids = [] ∧ cs8.wave_countdown = some 0 ∧ (0 : ℚ) ≤ 5) ∧
    ((wavePhase cs8 5 rng0).1.current_wave = cs8.current_wave + 1 ∧
      (wavePhase cs8 5 rng0).1.asteroids.length =
        min (ASTEROID_COUNT + ((cs8.current_wave + 1) - 1) * ASTEROIDS_PER_WAVE) 100 ∧
      (wavePhase cs8 5 rng0).1.wave_countdown = none) :=
  ⟨⟨rfl, rfl, by norm_num⟩,
    (c8_wave_progression cs8 5 rng0).2.2.1 0 rfl rfl (by norm_num)⟩

/-! ## C6: client id assignment -/

theorem ServerState_new_next_id (rng : Rng) :
    (ServerState.new rng).1.next_id = 1 + ASTEROID_COUNT := by
  simp only [ServerState.new]
  rw [spawn_asteroids_state]

/-- C6, counterexample: on a freshly started server the very first client to
connect is assigned id 51, not 1 — `ServerState::new` pre-spawns
`ASTEROID_COUNT = 50` asteroids, each consuming one id from the shared
counter, before any client connects. -/
theorem c6_counterexample :
    (connectClient (ServerState.new rng0).1).1.1 = 51 ∧ (51 : ℕ) ≠ 1 := by
  constructor
  · show (ServerState.new rng0).1.next_id = 51
    rw [ServerState_new_next_id]
    decide
  · decide

/-- C6 (amended): on a freshly started server the first client to connect is
assigned id `1 + ASTEROID_COUNT = 51` (the initial asteroid wave consumes
ids 1..50) and receives `Welcome { id: 51, tick_hz: 20 }`; in general every
connect hands out the current value of the shared counter and bumps it, so
successive connects receive strictly increasing ids. -/
theorem c6_client_ids :
    ((connectClient (ServerState.new rng0).1).1.1 = 1 + ASTEROID_COUNT) ∧
    ((connectClient (ServerState.new rng0).1).1.2 = TICK_HZ ∧ TICK_HZ = 20) ∧
    (∀ s : ServerState,
      (connectClient s).1.1 = s.next_id ∧
      (connectClient s).2.next_id = s.next_id + 1 ∧
      (connectClient s).2.clients = s.clients ++ [s.next_id] ∧
      (connectClient s).1.1 < (connectClient (connectClient s).2).1.1) := by
  refine ⟨?_, ⟨rfl, rfl⟩, ?_⟩
  · show (ServerState.new rng0).1.next_id = 1 + ASTEROID_COUNT
    exact ServerState_new_next_id rng0
  · intro s
    exact ⟨rfl, rfl, rfl, Nat.lt_succ_self _⟩

/-! ## C9: the Input message and the rotation rule -/

theorem movedPlayer_angle (env : Env) (now dt : ℚ) (rt : PlayerRuntime)
    (player : PlayerState) :
    (movedPlayer env now dt rt player).angle
      = player.angle + (rt.input.rotate : ℚ) * ROT_SPEED * dt := rfl

theorem moveStep_other (env : Env) (now dt : ℚ) (acc : MoveAcc) (qid pid : ℕ)
    (h : pid ≠ qid) :
    lookupPlayer (moveStep env now dt acc qid).players pid
        = lookupPlayer acc.players pid ∧
      lookupRt (moveStep env now dt acc qid).runtime pid
        = lookupRt acc.runtime pid := by
  cases hp : lookupPlayer acc.players qid with
  | none =>
    simp only [moveStep, hp]
    exact ⟨trivial, trivial⟩
  | some player =>
    cases hr : lookupRt acc.runtime qid with
    | none =>
      simp only [moveStep, hp, hr]
      exact ⟨trivial, trivial⟩
    | some rt =>
      cases ha : player.alive with
      | false =>
        simp only [moveStep, hp, hr, ha, Bool.not_false, if_true]
        exact ⟨trivial, trivial⟩
      | true =>
        simp only [moveStep, hp, hr, ha, Bool.not_true, Bool.false_eq_true,
          if_false]
        constructor
        · split_ifs <;>
            exact lookupPlayer_updatePlayer_ne acc.players qid pid _
              (fun _ => rfl) h
        · split_ifs <;>
            first
            | rfl
            | exact lookupRt_updateRt_ne acc.runtime qid pid
                (fun r => { r with last_fire := now }) h

theorem foldl_moveStep_other (env : Env) (now dt : ℚ) (ids : List ℕ)
    (acc : MoveAcc) (pid : ℕ) (h : pid ∉ ids) :
    lookupPlayer ((ids.foldl (moveStep env now dt)) acc).players pid
        = lookupPlayer acc.players pid ∧
      lookupRt ((ids.foldl (moveStep env now dt)) acc).runtime pid
        = lookupRt acc.runtime pid := by
  induction ids generalizing acc with
  | nil => exact ⟨rfl, rfl⟩
  | cons q rest ih =>
    have hq : pid ≠ q := fun hx => h (by simp [hx])
    have hrest : pid ∉ rest := fun hx => h (by simp [hx])
    obtain ⟨h1, h2⟩ := moveStep_other env now dt acc q pid hq
    obtain ⟨h3, h4⟩ := ih (moveStep env now dt acc q) hrest
    exact ⟨h3.trans h1, h4.trans h2⟩

theorem moveStep_self_angle (env : Env) (now dt : ℚ) (acc : MoveAcc) (pid : ℕ)
    (p : PlayerState) (rt : PlayerRuntime)
    (hp : lookupPlayer acc.players pid = some p)
    (hr : lookupRt acc.runtime pid = some rt)
    (halive : p.alive = true) :
    ∃ p', lookupPlayer (moveStep env now dt acc pid).players pid = some p' ∧
      p'.angle = p.angle + (rt.input.rotate : ℚ) * ROT_SPEED * dt ∧
      p'.id = p.id := by
  have hlk :
      lookupPlayer
        (updatePlayer acc.players pid fun q =>
          { q with
              angle := (movedPlayer env now dt rt p).angle
              vel := (movedPlayer env now dt rt p).vel
              pos := (movedPlayer env now dt rt p).pos })
        pid
      = some (movedPlayer env now dt rt p) := by
    rw [lookupPlayer_updatePlayer_self acc.players pid
      (fun q =>
        { q with
            angle := (movedPlayer env now dt rt p).angle
            vel := (movedPlayer env now dt rt p).vel
            pos := (movedPlayer env now dt rt p).pos })
      (fun _ => rfl), hp, Option.map_some']
    rfl
  simp only [moveStep, hp, hr, halive, Bool.not_true, Bool.false_eq_true, if_false]
  split_ifs <;>
    exact ⟨movedPlayer env now dt rt p, hlk, movedPlayer_angle env now dt rt p, rfl⟩

/-- C9 (the part of the claim the server's tick implements): in every tick,
for every living player, the movement phase changes the heading angle by
exactly `input.rotate * ROT_SPEED * dt`, read from that player's latest
buffered input — and, the divergence that makes this claim a code bug: the
`PlayerInput` struct of the shared crate does not declare the fields
`{thrust, rotate, fire}` the spec, the server (main.rs:447) and the client
(client main.rs:230-234) all use, but `{thrust, target_angle, fire}`
(shared/src/lib.rs:57-63), so the repository does not even compile. -/
theorem c9_rotation_rule :
    playerInputDeclaredFields ≠ playerInputUsedFields ∧
    ∀ (s : ServerState) (now dt : ℚ) (env : Env) (pid : ℕ)
      (p : PlayerState) (rt : PlayerRuntime),
      (s.players.map (·.id)).Nodup →
      lookupPlayer s.players pid = some p →
      lookupRt s.runtime pid = some rt →
      p.alive = true →
      ∃ p', lookupPlayer (movementPhase s now dt env).players pid = some p' ∧
        p'.angle = p.angle + (rt.input.rotate : ℚ) * ROT_SPEED * dt := by
  constructor
  · decide
  · intro s now dt env pid p rt hnd hp hr halive
    have hpid_mem : pid ∈ s.players.map (·.id) := by
      have := List.find?_some hp
      have hmem := List.mem_of_find?_eq_some hp
      refine List.mem_map.mpr ⟨p, hmem, ?_⟩
      simpa using this
    obtain ⟨l1, l2, hsplit⟩ := List.append_of_mem hpid_mem
    have hnd' := hsplit ▸ hnd
    have hpid_l1 : pid ∉ l1 := by
      intro hx
      have := List.disjoint_of_nodup_append hnd'
      exact this hx (by simp)
    have hpid_l2 : pid ∉ l2 := by
      have := (List.nodup_append.mp hnd').2.1
      exact (List.nodup_cons.mp this).1
    simp only [movementPhase, hsplit]
    rw [List.foldl_append]
    set acc0 : MoveAcc := ⟨s.players, s.runtime, s.bullets, s.next_id⟩ with hacc0
    obtain ⟨e1, e2⟩ := foldl_moveStep_other env now dt l1 acc0 pid hpid_l1
    rw [List.foldl_cons]
    have hp1 : lookupPlayer ((l1.foldl (moveStep env now dt)) acc0).players pid
        = some p := by
      rw [e1]
      exact hp
    have hr1 : lookupRt ((l1.foldl (moveStep env now dt)) acc0).runtime pid
        = some rt := by
      rw [e2]
      exact hr
    obtain ⟨p', hp', hangle, hid⟩ :=
      moveStep_self_angle env now dt _ pid p rt hp1 hr1 halive
    obtain ⟨e3, _⟩ := foldl_moveStep_other env now dt l2
      (moveStep env now dt ((l1.foldl (moveStep env now dt)) acc0) pid) pid hpid_l2
    exact ⟨p', by rw [e3, hp'], hangle⟩

/-- C9 witness: the rotation rule applied at the concrete one-player state
`cs9` (player 1 alive, buffered input `rotate = -1`), tick time 0,
`dt = 1/20`. -/
theorem c9_witness :
    ((cs9.players.map (·.id)).Nodup ∧ lookupPlayer cs9.players 1 = some cp9 ∧
      lookupRt cs9.runtime 1 = some crt9 ∧ cp9.alive = true) ∧
    (∃ p', lookupPlayer (movementPhase cs9 0 (1/20) env0).players 1 = some p' ∧
      p'.angle = cp9.angle + (crt9.input.rotate : ℚ) * ROT_SPEED * (1/20)) :=
  ⟨⟨by decide, rfl, rfl, rfl⟩,
    c9_rotation_rule.2 cs9 0 (1/20) env0 1 cp9 crt9 (by decide) rfl rfl rfl⟩

/-! ## C2 and C3: the bullet-asteroid scan -/

theorem processBullet_eq (env : Env) (now : ℚ) (asteroids : List AsteroidState)
    (acc : HitAcc) (b : BulletRuntime) :
    processBullet env now asteroids acc b =
      match bulletHit asteroids b with
      | some ast => processHit env now acc b ast
      | none => acc := rfl

theorem splitChild_size (env : Env) (ast : AsteroidState) (i : ℕ)
    (spread speedMult : ℚ) (cid : ℕ) :
    (splitChild env ast i spread speedMult cid).size = ast.size - 1 := rfl

theorem processHit_btr (env : Env) (now : ℚ) (acc : HitAcc) (b : BulletRuntime)
    (ast : AsteroidState) :
    (processHit env now acc b ast).bullets_to_remove =
      acc.bullets_to_remove ++ [b.state.id] := by
  simp only [processHit, Rng.draw, Rng.drawNat]
  cases lookupRt acc.runtime b.state.owner_id <;> split_ifs <;> rfl

theorem processHit_atr (env : Env) (now : ℚ) (acc : HitAcc) (b : BulletRuntime)
    (ast : AsteroidState) :
    (processHit env now acc b ast).asteroids_to_remove =
      acc.asteroids_to_remove ++ [ast.id] := by
  simp only [processHit, Rng.draw, Rng.drawNat]
  cases lookupRt acc.runtime b.state.owner_id <;> split_ifs <;> rfl

theorem processHit_kills (env : Env) (now : ℚ) (acc : HitAcc) (b : BulletRuntime)
    (ast : AsteroidState) :
    (processHit env now acc b ast).asteroid_kills =
      acc.asteroid_kills ++ [(b.state.owner_id, ast.id, ast.pos, ast.vel)] := by
  simp only [processHit, Rng.draw, Rng.drawNat]
  cases lookupRt acc.runtime b.state.owner_id <;> split_ifs <;> rfl

theorem processHit_new_len (env : Env) (now : ℚ) (acc : HitAcc) (b : BulletRuntime)
    (ast : AsteroidState) :
    (processHit env now acc b ast).new_asteroids.length =
      acc.new_asteroids.length + (if 1 < ast.size then 2 else 0) := by
  simp only [processHit, Rng.draw, Rng.drawNat]
  cases lookupRt acc.runtime b.state.owner_id <;> split_ifs <;> simp_all

theorem processHit_new_mem (env : Env) (now : ℚ) (acc : HitAcc) (b : BulletRuntime)
    (ast : AsteroidState) :
    ∀ c ∈ (processHit env now acc b ast).new_asteroids,
      c ∈ acc.new_asteroids ∨ (1 < ast.size ∧ c.size = ast.size - 1) := by
  simp only [processHit, Rng.draw, Rng.drawNat]
  cases lookupRt acc.runtime b.state.owner_id <;> split_ifs <;>
    · intro c hc
      first
      | exact Or.inl hc
      | · simp only [List.mem_append, List.mem_cons] at hc
          rcases hc with hc | hc | hc | hc
          · exact Or.inl hc
          · exact Or.inr ⟨by assumption, by rw [hc]; rfl⟩
          · exact Or.inr ⟨by assumption, by rw [hc]; rfl⟩
          · exact absurd hc (List.not_mem_nil c)

theorem foldl_processBullet_btr (env : Env) (now : ℚ) (asts : List AsteroidState)
    (bs : List BulletRuntime) (acc : HitAcc) :
    (List.foldl (processBullet env now asts) acc bs).bullets_to_remove =
      acc.bullets_to_remove ++
        bs.filterMap (fun b => (bulletHit asts b).map (fun _ => b.state.id)) := by
  induction bs generalizing acc with
  | nil => simp
  | cons b rest ih =>
    rw [List.foldl_cons, ih (processBullet env now asts acc b)]
    cases hb : bulletHit asts b with
    | none =>
      have he : processBullet env now asts acc b = acc := by
        rw [processBullet_eq, hb]
      rw [he]
      simp [List.filterMap_cons, hb]
    | some ast =>
      have he : processBullet env now asts acc b = processHit env now acc b ast := by
        rw [processBullet_eq, hb]
      rw [he, processHit_btr]
      simp [List.filterMap_cons, hb]

theorem foldl_processBullet_atr (env : Env) (now : ℚ) (asts : List AsteroidState)
    (bs : List BulletRuntime) (acc : HitAcc) :
    (List.foldl (processBullet env now asts) acc bs).asteroids_to_remove =
      acc.asteroids_to_remove ++
        bs.filterMap (fun b => (bulletHit asts b).map (·.id)) := by
  induction bs generalizing acc with
  | nil => simp
  | cons b rest ih =>
    rw [List.foldl_cons, ih (processBullet env now asts acc b)]
    cases hb : bulletHit asts b with
    | none =>
      have he : processBullet env now asts acc b = acc := by
        rw [processBullet_eq, hb]
      rw [he]
      simp [List.filterMap_cons, hb]
    | some ast =>
      have he : processBullet env now asts acc b = processHit env now acc b ast := by
        rw [processBullet_eq, hb]
      rw [he, processHit_atr]
      simp [List.filterMap_cons, hb]

theorem foldl_processBullet_kills (env : Env) (now : ℚ) (asts : List AsteroidState)
    (bs : List BulletRuntime) (acc : HitAcc) :
    (List.foldl (processBullet env now asts) acc bs).asteroid_kills =
      acc.asteroid_kills ++
        bs.filterMap (fun b => (bulletHit asts b).map
          (fun a => (b.state.owner_id, a.id, a.pos, a.vel))) := by
  induction bs generalizing acc with
  | nil => simp
  | cons b rest ih =>
    rw [List.foldl_cons, ih (processBullet env now asts acc b)]
    cases hb : bulletHit asts b with
    | none =>
      have he : processBullet env now asts acc b = acc := by
        rw [processBullet_eq, hb]
      rw [he]
      simp [List.filterMap_cons, hb]
    | some ast =>
      have he : processBullet env now asts acc b = processHit env now acc b ast := by
        rw [processBullet_eq, hb]
      rw [he, processHit_kills]
      simp [List.filterMap_cons, hb]

theorem foldl_processBullet_new_len (env : Env) (now : ℚ)
    (asts : List AsteroidState) (bs : List BulletRuntime) (acc : HitAcc) :
    (List.foldl (processBullet env now asts) acc bs).new_asteroids.length =
      acc.new_asteroids.length +
        2 * ((bs.filterMap (bulletHit asts)).filter
          (fun a => decide (1 < a.size))).length := by
  induction bs generalizing acc with
  | nil => simp
  | cons b rest ih =>
    rw [List.foldl_cons, ih (processBullet env now asts acc b)]
    cases hb : bulletHit asts b with
    | none =>
      have he : processBullet env now asts acc b = acc := by
        rw [processBullet_eq, hb]
      rw [he]
      simp [List.filterMap_cons, hb]
    | some ast =>
      have he : processBullet env now asts acc b = processHit env now acc b ast := by
        rw [processBullet_eq, hb]
      rw [he, processHit_new_len]
      by_cases hz : 1 < ast.size
      · simp only [List.filterMap_cons, hb, Option.some.injEq, hz, if_true,
          List.filter_cons, decide_True, List.length_cons]
        omega
      · simp only [List.filterMap_cons, hb, hz, if_false,
          List.filter_cons, decide_False, Bool.false_eq_true, List.length_cons]
        omega

theorem foldl_processBullet_new_mem (env : Env) (now : ℚ)
    (asts : List AsteroidState) (bs : List BulletRuntime) (acc : HitAcc) :
    ∀ c ∈ (List.foldl (processBullet env now asts) acc bs).new_asteroids,
      c ∈ acc.new_asteroids ∨
        ∃ a ∈ bs.filterMap (bulletHit asts), 1 < a.size ∧ c.size = a.size - 1 := by
  induction bs generalizing acc with
  | nil => exact fun c hc => Or.inl hc
  | cons b rest ih =>
    intro c hc
    rw [List.foldl_cons] at hc
    rcases ih (processBullet env now asts acc b) c hc with hmem | ⟨a, ha, hz, hs⟩
    · cases hb : bulletHit asts b with
      | none =>
        have he : processBullet env now asts acc b = acc := by
          rw [processBullet_eq, hb]
        rw [he] at hmem
        exact Or.inl hmem
      | some ast =>
        have he : processBullet env now asts acc b = processHit env now acc b ast := by
          rw [processBullet_eq, hb]
        rw [he] at hmem
        rcases processHit_new_mem env now acc b ast c hmem with h1 | ⟨hz, hs⟩
        · exact Or.inl h1
        · refine Or.inr ⟨ast, ?_, hz, hs⟩
          simp [List.filterMap_cons, hb]
    · refine Or.inr ⟨a, ?_, hz, hs⟩
      cases hb : bulletHit asts b with
      | none => simpa [List.filterMap_cons, hb] using ha
      | some ast =>
        simp only [List.filterMap_cons, hb, List.mem_cons]
        exact Or.inr ha

theorem filterMap_hit_sublist (asts : List AsteroidState) (bs : List BulletRuntime) :
    (bs.filterMap (fun b => (bulletHit asts b).map (fun _ => b.state.id))).Sublist
      (bs.map (·.state.id)) := by
  induction bs with
  | nil => simp
  | cons b rest ih =>
    cases hb : bulletHit asts b with
    | none =>
      simp only [List.filterMap_cons, hb, List.map_cons]
      exact ih.cons _
    | some ast =>
      simp only [List.filterMap_cons, hb, Option.map_some', List.map_cons]
      exact ih.cons₂ _

theorem filterMap_hit_length {α β : Type} (asts : List AsteroidState)
    (bs : List BulletRuntime) (f : BulletRuntime → AsteroidState → α)
    (g : BulletRuntime → AsteroidState → β) :
    (bs.filterMap (fun b => (bulletHit asts b).map (f b))).length =
      (bs.filterMap (fun b => (bulletHit asts b).map (g b))).length := by
  induction bs with
  | nil => rfl
  | cons b rest ih =>
    cases hb : bulletHit asts b <;> simp [List.filterMap_cons, hb, ih]

/-- C2: within one tick's bullet-asteroid resolution (main.rs:540-644) no
entity is double-removed: the scan consumes each bullet at most once (the
list of bullets marked for removal is a sublist of the bullet-id list, hence
duplicate-free whenever bullet ids are), records exactly one kill pair per
consumed bullet, and only after the whole scan are the bullet and asteroid
containers mutated — each as a single filter of the original list (so an
asteroid hit by several bullets is removed only once) followed by appending
the split children. -/
theorem c2_no_double_removal (s : ServerState) (now : ℚ) (rng : Rng) (env : Env) :
    ((collectHits s now rng env).bullets_to_remove.Sublist
        (s.bullets.map (·.state.id))) ∧
    ((s.bullets.map (·.state.id)).Nodup →
      (collectHits s now rng env).bullets_to_remove.Nodup) ∧
    ((collectHits s now rng env).asteroid_kills.length =
      (collectHits s now rng env).bullets_to_remove.length) ∧
    ((bulletAsteroidPhase s now rng env).1.bullets =
      s.bullets.filter (fun b =>
        decide (b.state.id ∉ (collectHits s now rng env).bullets_to_remove))) ∧
    ((bulletAsteroidPhase s now rng env).1.asteroids =
      (s.asteroids.filter (fun a =>
        decide (a.id ∉ (collectHits s now rng env).asteroids_to_remove)))
        ++ (collectHits s now rng env).new_asteroids) := by
  have hc : collectHits s now rng env =
      List.foldl (processBullet env now s.asteroids)
        ⟨[], [], [], [], s.runtime, s.players, s.power_ups, s.next_id, rng⟩
        s.bullets := rfl
  have hsub : (collectHits s now rng env).bullets_to_remove.Sublist
      (s.bullets.map (·.state.id)) := by
    rw [hc, foldl_processBullet_btr]
    simpa using filterMap_hit_sublist s.asteroids s.bullets
  refine ⟨hsub, ?_, ?_, rfl, rfl⟩
  · intro hnd
    exact hnd.sublist hsub
  · rw [hc, foldl_processBullet_kills, foldl_processBullet_btr]
    simpa using filterMap_hit_length s.asteroids s.bullets
      (fun b a => (b.state.owner_id, a.id, a.pos, a.vel)) (fun b _ => b.state.id)

/-- C2 witness: the no-double-consumption conclusion at the concrete
two-bullet state `cexC3`, whose bullet ids 100, 101 are distinct. -/
theorem c2_witness :
    (cexC3.bullets.map (·.state.id)).Nodup ∧
    (collectHits cexC3 0 rng0 env0).bullets_to_remove.Nodup :=
  ⟨by decide, (c2_no_double_removal cexC3 0 rng0 env0).2.1 (by decide)⟩

theorem cex_collides (bid : ℕ) : collidesBulletAst (cexBullet bid) cexAst = true := by
  simp only [collidesBulletAst, decide_eq_true_eq, cexBullet, cexAst]
  norm_num [distance_squared_wrapped, shortest_delta, WORLD_WIDTH, WORLD_HEIGHT,
    BULLET_RADIUS, asteroid_radius]

theorem cex_bulletHit (bid : ℕ) :
    bulletHit [cexAst] (cexBullet bid) = some cexAst := by
  rw [bulletHit, List.find?_cons_of_pos _ (cex_collides bid)]

/-- C3, counterexample: in the concrete state `cexC3` exactly one asteroid
(id 1, size 2) is destroyed, overlapped by two bullets in the same tick, yet
the scan records it for removal twice and adds 4 (not 2) size-1 children —
the hit resolution runs once per overlapping bullet because the asteroid is
only removed after the whole scan. -/
theorem c3_counterexample :
    (collectHits cexC3 0 rng0 env0).asteroids_to_remove = [1, 1] ∧
    (collectHits cexC3 0 rng0 env0).new_asteroids.length = 4 ∧ ((4 : ℕ) ≠ 2) := by
  have hc : collectHits cexC3 0 rng0 env0 =
      List.foldl (processBullet env0 0 cexC3.asteroids)
        ⟨[], [], [], [], cexC3.runtime, cexC3.players, cexC3.power_ups,
          cexC3.next_id, rng0⟩
        cexC3.bullets := rfl
  have hasts : cexC3.asteroids = [cexAst] := rfl
  have hbul : cexC3.bullets = [cexBullet 100, cexBullet 101] := rfl
  refine ⟨?_, ?_, by decide⟩
  · rw [hc, foldl_processBullet_atr, hasts, hbul]
    simp only [List.filterMap_cons, cex_bulletHit, Option.map_some',
      List.filterMap_nil, List.nil_append]
    rfl
  · rw [hc, foldl_processBullet_new_len, hasts, hbul]
    simp only [List.filterMap_cons, cex_bulletHit, List.filterMap_nil]
    rfl

/-- C3 (amended): each recorded bullet-asteroid hit resolution adds exactly
two child asteroids of the next-smaller size class when the struck
asteroid's size is above the smallest, and zero children otherwise; hence
across a tick the number of children added equals 2 times the number of hit
resolutions on above-smallest asteroids, and every child's size class is one
below that of its (above-smallest) parent.  An asteroid destroyed by exactly
one bullet therefore yields exactly 2 children — but an asteroid overlapped
by k bullets in the same tick undergoes k hit resolutions and yields 2k
children, although it is removed from the asteroid set only once. -/
theorem c3_split_children (s : ServerState) (now : ℚ) (rng : Rng) (env : Env) :
    ((collectHits s now rng env).new_asteroids.length =
      2 * ((s.bullets.filterMap (bulletHit s.asteroids)).filter
        (fun a => decide (1 < a.size))).length) ∧
    (∀ c ∈ (collectHits s now rng env).new_asteroids,
      ∃ a ∈ s.bullets.filterMap (bulletHit s.asteroids),
        1 < a.size ∧ c.size = a.size - 1) ∧
    (∀ (acc : HitAcc) (b : BulletRuntime) (ast : AsteroidState),
      (processHit env now acc b ast).new_asteroids.length =
        acc.new_asteroids.length + (if 1 < ast.size then 2 else 0)) := by
  have hc : collectHits s now rng env =
      List.foldl (processBullet env now s.asteroids)
        ⟨[], [], [], [], s.runtime, s.players, s.power_ups, s.next_id, rng⟩
        s.bullets := rfl
  refine ⟨?_, ?_, ?_⟩
  · rw [hc, foldl_processBullet_new_len]
    simp
  · intro c hcmem
    rw [hc] at hcmem
    rcases foldl_processBullet_new_mem env now s.asteroids s.bullets _ c hcmem with
      hnil | h
    · exact absurd hnil (List.not_mem_nil c)
    · exact h
  · intro acc b ast
    exact processHit_new_len env now acc b ast

/-! ## C1: invincibility protection through the whole tick -/

theorem AliveIn_map (ps : List PlayerState) (pid : ℕ) (f : PlayerState → PlayerState)
    (hid : ∀ p, (f p).id = p.id) (hal : ∀ p, p.alive = true → (f p).alive = true)
    (h : AliveIn ps pid) : AliveIn (ps.map f) pid := by
  intro p' hp' hpid
  obtain ⟨p, hp, rfl⟩ := List.mem_map.mp hp'
  exact hal p (h p hp (by rw [← hid p]; exact hpid))

theorem ScoreGeIn_map (ps : List PlayerState) (pid sc : ℕ)
    (f : PlayerState → PlayerState)
    (hid : ∀ p, (f p).id = p.id) (hsc : ∀ p, p.score ≤ (f p).score)
    (h : ScoreGeIn ps pid sc) : ScoreGeIn (ps.map f) pid sc := by
  intro p' hp' hpid
  obtain ⟨p, hp, rfl⟩ := List.mem_map.mp hp'
  exact le_trans (h p hp (by rw [← hid p]; exact hpid)) (hsc p)

theorem AliveIn_updatePlayer_mono (ps : List PlayerState) (pid qid : ℕ)
    (f : PlayerState → PlayerState) (hid : ∀ p, (f p).id = p.id)
    (hal : ∀ p, p.alive = true → (f p).alive = true)
    (h : AliveIn ps pid) : AliveIn (updatePlayer ps qid f) pid := by
  apply AliveIn_map ps pid _ _ _ h
  · intro p
    by_cases hq : (p.id == qid) = true <;> simp [hq, hid]
  · intro p hp
    by_cases hq : (p.id == qid) = true <;> simp [hq, hp, hal p hp]

theorem ScoreGeIn_updatePlayer_mono (ps : List PlayerState) (pid qid sc : ℕ)
    (f : PlayerState → PlayerState) (hid : ∀ p, (f p).id = p.id)
    (hsc : ∀ p, p.score ≤ (f p).score)
    (h : ScoreGeIn ps pid sc) : ScoreGeIn (updatePlayer ps qid f) pid sc := by
  apply ScoreGeIn_map ps pid sc _ _ _ h
  · intro p
    by_cases hq : (p.id == qid) = true <;> simp [hq, hid]
  · intro p
    by_cases hq : (p.id == qid) = true <;> simp [hq, hsc p]

theorem AliveIn_updatePlayer_ne (ps : List PlayerState) (pid qid : ℕ)
    (f : PlayerState → PlayerState) (hid : ∀ p, (f p).id = p.id)
    (hne : qid ≠ pid) (h : AliveIn ps pid) : AliveIn (updatePlayer ps qid f) pid := by
  intro p' hp' hpid
  obtain ⟨p, hp, rfl⟩ := List.mem_map.mp hp'
  by_cases hq : (p.id == qid) = true
  · have h1 : p.id = qid := by simpa using hq
    rw [hq] at hpid
    simp only [if_true] at hpid
    rw [hid p, h1] at hpid
    exact absurd hpid hne
  · have hqf : (p.id == qid) = false := by simpa using hq
    rw [hqf] at hpid ⊢
    simp only [Bool.false_eq_true, if_false] at hpid ⊢
    exact h p hp hpid

theorem ScoreGeIn_updatePlayer_ne (ps : List PlayerState) (pid qid sc : ℕ)
    (f : PlayerState → PlayerState) (hid : ∀ p, (f p).id = p.id)
    (hne : qid ≠ pid) (h : ScoreGeIn ps pid sc) :
    ScoreGeIn (updatePlayer ps qid f) pid sc := by
  intro p' hp' hpid
  obtain ⟨p, hp, rfl⟩ := List.mem_map.mp hp'
  by_cases hq : (p.id == qid) = true
  · have h1 : p.id = qid := by simpa using hq
    rw [hq] at hpid
    simp only [if_true] at hpid
    rw [hid p, h1] at hpid
    exact absurd hpid hne
  · have hqf : (p.id == qid) = false := by simpa using hq
    rw [hqf] at hpid ⊢
    simp only [Bool.false_eq_true, if_false] at hpid ⊢
    exact h p hp hpid

theorem ProtectedIn_map (rts : List (ℕ × PlayerRuntime)) (pid : ℕ) (now : ℚ)
    (g : ℕ × PlayerRuntime → ℕ × PlayerRuntime)
    (hkey : ∀ e, (g e).1 = e.1)
    (hinv : ∀ e, e.2.is_invincible now = true → (g e).2.is_invincible now = true)
    (h : ProtectedIn rts pid now) : ProtectedIn (rts.map g) pid now := by
  obtain ⟨rt, hlk, hi⟩ := h
  induction rts with
  | nil => simp [lookupRt] at hlk
  | cons e rest ih =>
    rw [List.map_cons]
    rw [lookupRt_cons] at hlk
    rw [show ProtectedIn ((g e) :: rest.map g) pid now =
      ProtectedIn ((g e) :: rest.map g) pid now from rfl]
    by_cases hq : (e.1 == pid) = true
    · rw [hq, if_pos rfl] at hlk
      refine ⟨(g e).2, ?_, hinv e (by rw [← Option.some_inj.mp hlk] at hi; exact hi)⟩
      rw [lookupRt_cons, show ((g e).1 == pid) = true by rw [hkey e]; exact hq,
        if_pos rfl]
    · have hqf : (e.1 == pid) = false := by simpa using hq
      rw [hqf] at hlk
      simp only [Bool.false_eq_true, if_false] at hlk
      obtain ⟨rt', hlk', hi'⟩ := ih hlk
      refine ⟨rt', ?_, hi'⟩
      rw [lookupRt_cons, show ((g e).1 == pid) = false by rw [hkey e]; exact hqf]
      simpa using hlk'

theorem ProtectedIn_updateRt_inv (rts : List (ℕ × PlayerRuntime)) (pid qid : ℕ)
    (now : ℚ) (g : PlayerRuntime → PlayerRuntime)
    (hinv : ∀ rt, rt.is_invincible now = true → (g rt).is_invincible now = true)
    (h : ProtectedIn rts pid now) : ProtectedIn (updateRt rts qid g) pid now := by
  apply ProtectedIn_map rts pid now _ _ _ h
  · intro e
    by_cases hq : (e.1 == qid) = true <;> simp [hq]
  · intro e he
    by_cases hq : (e.1 == qid) = true <;> simp [hq, he, hinv e.2 he]

theorem ProtectedIn_updateRt_ne (rts : List (ℕ × PlayerRuntime)) (pid qid : ℕ)
    (now : ℚ) (g : PlayerRuntime → PlayerRuntime) (hne : pid ≠ qid)
    (h : ProtectedIn rts pid now) : ProtectedIn (updateRt rts qid g) pid now := by
  obtain ⟨rt, hlk, hi⟩ := h
  exact ⟨rt, by rw [lookupRt_updateRt_ne _ _ _ _ hne]; exact hlk, hi⟩

theorem ProtectedIn_isInvincibleIn (rts : List (ℕ × PlayerRuntime)) (pid : ℕ)
    (now : ℚ) (h : ProtectedIn rts pid now) : isInvincibleIn rts pid now = true := by
  obtain ⟨rt, hlk, hi⟩ := h
  rw [isInvincibleIn, hlk]
  exact hi

theorem respawnStep_guard (asts : List AsteroidState) (now : ℚ)
    (acc : List PlayerState × List (ℕ × PlayerRuntime) × Rng) (qid pid sc : ℕ) :
    (ProtectedIn acc.2.1 pid now →
      ProtectedIn (respawnStep asts now acc qid).2.1 pid now) ∧
    (AliveIn acc.1 pid → AliveIn (respawnStep asts now acc qid).1 pid) ∧
    (ScoreGeIn acc.1 pid sc → ScoreGeIn (respawnStep asts now acc qid).1 pid sc) := by
  cases hp : lookupPlayer acc.1 qid with
  | none =>
    simp only [respawnStep, hp]
    exact ⟨id, id, id⟩
  | some p =>
    simp only [respawnStep, hp]
    have hlt : now < now + SPAWN_INVINCIBILITY_SECS := by
      norm_num [SPAWN_INVINCIBILITY_SECS]
    refine ⟨?_, ?_, ?_⟩
    · intro h
      apply ProtectedIn_updateRt_inv _ _ _ _ _ _ h
      intro rt _
      simp [PlayerRuntime.is_invincible, hlt]
    · intro h
      exact AliveIn_updatePlayer_mono _ _ _ _ (fun _ => rfl) (fun _ _ => rfl) h
    · intro h
      exact ScoreGeIn_updatePlayer_mono _ _ _ _ _ (fun _ => rfl) (fun _ => le_refl _) h

theorem foldl_respawnStep_guard (asts : List AsteroidState) (now : ℚ)
    (ids : List ℕ) (acc : List PlayerState × List (ℕ × PlayerRuntime) × Rng)
    (pid sc : ℕ) :
    (ProtectedIn acc.2.1 pid now →
      ProtectedIn (List.foldl (respawnStep asts now) acc ids).2.1 pid now) ∧
    (AliveIn acc.1 pid → AliveIn (List.foldl (respawnStep asts now) acc ids).1 pid) ∧
    (ScoreGeIn acc.1 pid sc →
      ScoreGeIn (List.foldl (respawnStep asts now) acc ids).1 pid sc) := by
  induction ids generalizing acc with
  | nil => exact ⟨id, id, id⟩
  | cons q rest ih =>
    rw [List.foldl_cons]
    obtain ⟨s1, s2, s3⟩ := respawnStep_guard asts now acc q pid sc
    obtain ⟨i1, i2, i3⟩ := ih (respawnStep asts now acc q)
    exact ⟨fun h => i1 (s1 h), fun h => i2 (s2 h), fun h => i3 (s3 h)⟩

theorem clearRespawnDue_protected (rts : List (ℕ × PlayerRuntime)) (now now' : ℚ)
    (pid : ℕ) (h : ProtectedIn rts pid now) :
    ProtectedIn (clearRespawnDue rts now') pid now := by
  apply ProtectedIn_map rts pid now _ _ _ h
  · intro e
    by_cases hq : e.2.respawn_at.elim false fun t => decide (now' ≥ t) <;>
      simp [clearRespawnDue, hq]
  · intro e he
    by_cases hq : e.2.respawn_at.elim false fun t => decide (now' ≥ t) <;>
      simp [clearRespawnDue, hq] <;>
      simpa [PlayerRuntime.is_invincible] using he

theorem respawnPhase_guard (s : ServerState) (now : ℚ) (rng : Rng) (pid sc : ℕ) :
    (ProtectedIn s.runtime pid now →
      ProtectedIn (respawnPhase s now rng).1.runtime pid now) ∧
    (AliveIn s.players pid → AliveIn (respawnPhase s now rng).1.players pid) ∧
    (ScoreGeIn s.players pid sc →
      ScoreGeIn (respawnPhase s now rng).1.players pid sc) := by
  obtain ⟨g1, g2, g3⟩ := foldl_respawnStep_guard s.asteroids now
    (respawnDue s.runtime now) (s.players, clearRespawnDue s.runtime now, rng) pid sc
  refine ⟨?_, ?_, ?_⟩
  · intro h
    exact g1 (clearRespawnDue_protected s.runtime now now pid h)
  · exact g2
  · exact g3

theorem syncPlayer_fields (rts : List (ℕ × PlayerRuntime)) (now : ℚ)
    (p : PlayerState) :
    (syncPlayer rts now p).id = p.id ∧ (syncPlayer rts now p).alive = p.alive ∧
      (syncPlayer rts now p).score = p.score := by
  cases hr : lookupRt rts p.id with
  | none =>
    simp only [syncPlayer, hr]
    refine ⟨?_, ?_, ?_⟩ <;> first | rfl | trivial
  | some rt =>
    cases ha : rt.respawn_at with
    | none =>
      simp only [syncPlayer, hr, ha]
      refine ⟨?_, ?_, ?_⟩ <;> first | rfl | trivial
    | some t =>
      simp only [syncPlayer, hr, ha]
      split_ifs <;> refine ⟨?_, ?_, ?_⟩ <;> first | rfl | trivial

theorem syncPhase_guard (s : ServerState) (now : ℚ) (pid sc : ℕ) :
    ((syncPhase s now).runtime = s.runtime) ∧
    (AliveIn s.players pid → AliveIn (syncPhase s now).players pid) ∧
    (ScoreGeIn s.players pid sc → ScoreGeIn (syncPhase s now).players pid sc) := by
  refine ⟨rfl, ?_, ?_⟩
  · intro h
    exact AliveIn_map _ _ _ (fun p => (syncPlayer_fields s.runtime now p).1)
      (fun p hp => by rw [(syncPlayer_fields s.runtime now p).2.1]; exact hp) h
  · intro h
    exact ScoreGeIn_map _ _ _ _ (fun p => (syncPlayer_fields s.runtime now p).1)
      (fun p => by rw [(syncPlayer_fields s.runtime now p).2.2]) h

theorem moveStep_guard (env : Env) (now dt : ℚ) (acc : MoveAcc) (qid pid sc : ℕ) :
    (ProtectedIn acc.runtime pid now →
      ProtectedIn (moveStep env now dt acc qid).runtime pid now) ∧
    (AliveIn acc.players pid → AliveIn (moveStep env now dt acc qid).players pid) ∧
    (ScoreGeIn acc.players pid sc →
      ScoreGeIn (moveStep env now dt acc qid).players pid sc) := by
  cases hp : lookupPlayer acc.players qid with
  | none =>
    simp only [moveStep, hp]
    exact ⟨id, id, id⟩
  | some player =>
    cases hr : lookupRt acc.runtime qid with
    | none =>
      simp only [moveStep, hp, hr]
      exact ⟨id, id, id⟩
    | some rt =>
      cases ha : player.alive with
      | false =>
        simp only [moveStep, hp, hr, ha, Bool.not_false, if_true]
        exact ⟨id, id, id⟩
      | true =>
        simp only [moveStep, hp, hr, ha, Bool.not_true, Bool.false_eq_true, if_false]
        refine ⟨?_, ?_, ?_⟩
        · intro h
          split_ifs <;>
            first
            | exact h
            | exact ProtectedIn_updateRt_inv acc.runtime pid qid now
                (fun r => { r with last_fire := now }) (fun r hr' => hr') h
        · intro h
          split_ifs <;>
            exact AliveIn_updatePlayer_mono _ _ _ _ (fun _ => rfl)
              (fun _ hx => hx) h
        · intro h
          split_ifs <;>
            exact ScoreGeIn_updatePlayer_mono _ _ _ _ _ (fun _ => rfl)
              (fun _ => le_refl _) h

theorem movementPhase_guard (s : ServerState) (now dt : ℚ) (env : Env)
    (pid sc : ℕ) :
    (ProtectedIn s.runtime pid now →
      ProtectedIn (movementPhase s now dt env).runtime pid now) ∧
    (AliveIn s.players pid → AliveIn (movementPhase s now dt env).players pid) ∧
    (ScoreGeIn s.players pid sc →
      ScoreGeIn (movementPhase s now dt env).players pid sc) := by
  have key : ∀ (ids : List ℕ) (acc : MoveAcc),
      (ProtectedIn acc.runtime pid now →
        ProtectedIn (List.foldl (moveStep env now dt) acc ids).runtime pid now) ∧
      (AliveIn acc.players pid →
        AliveIn (List.foldl (moveStep env now dt) acc ids).players pid) ∧
      (ScoreGeIn acc.players pid sc →
        ScoreGeIn (List.foldl (moveStep env now dt) acc ids).players pid sc) := by
    intro ids
    induction ids with
    | nil => exact fun acc => ⟨id, id, id⟩
    | cons q rest ih =>
      intro acc
      rw [List.foldl_cons]
      obtain ⟨s1, s2, s3⟩ := moveStep_guard env now dt acc q pid sc
      obtain ⟨i1, i2, i3⟩ := ih (moveStep env now dt acc q)
      exact ⟨fun h => i1 (s1 h), fun h => i2 (s2 h), fun h => i3 (s3 h)⟩
  exact key (s.players.map (·.id)) ⟨s.players, s.runtime, s.bullets, s.next_id⟩

theorem processHit_players (env : Env) (now : ℚ) (acc : HitAcc)
    (b : BulletRuntime) (ast : AsteroidState) :
    (processHit env now acc b ast).players =
      match lookupRt acc.runtime b.state.owner_id with
      | none => acc.players
      | some rt => updatePlayer acc.players b.state.owner_id fun p =>
          { p with
              score := p.score + base_points ast.size * (comboUpdate rt now).combo
              combo := (comboUpdate rt now).combo } := by
  simp only [processHit, Rng.draw, Rng.drawNat]
  cases lookupRt acc.runtime b.state.owner_id <;> split_ifs <;> rfl

theorem processHit_guard (env : Env) (now : ℚ) (acc : HitAcc) (b : BulletRuntime)
    (ast : AsteroidState) (pid sc : ℕ) :
    (ProtectedIn acc.runtime pid now →
      ProtectedIn (processHit env now acc b ast).runtime pid now) ∧
    (AliveIn acc.players pid → AliveIn (processHit env now acc b ast).players pid) ∧
    (ScoreGeIn acc.players pid sc →
      ScoreGeIn (processHit env now acc b ast).players pid sc) := by
  refine ⟨?_, ?_, ?_⟩
  · intro h
    rw [processHit_runtime]
    cases lookupRt acc.runtime b.state.owner_id with
    | none => exact h
    | some rt =>
      exact ProtectedIn_updateRt_inv acc.runtime pid b.state.owner_id now
        (fun r => comboUpdate r now) (fun r hr => hr) h
  · intro h
    rw [processHit_players]
    cases lookupRt acc.runtime b.state.owner_id with
    | none => exact h
    | some rt =>
      exact AliveIn_updatePlayer_mono _ _ _ _ (fun _ => rfl) (fun _ hx => hx) h
  · intro h
    rw [processHit_players]
    cases lookupRt acc.runtime b.state.owner_id with
    | none => exact h
    | some rt =>
      exact ScoreGeIn_updatePlayer_mono _ _ _ _ _ (fun _ => rfl)
        (fun p => Nat.le_add_right _ _) h

theorem bulletAsteroidPhase_guard (s : ServerState) (now : ℚ) (rng : Rng)
    (env : Env) (pid sc : ℕ) :
    (ProtectedIn s.runtime pid now →
      ProtectedIn (bulletAsteroidPhase s now rng env).1.runtime pid now) ∧
    (AliveIn s.players pid →
      AliveIn (bulletAsteroidPhase s now rng env).1.players pid) ∧
    (ScoreGeIn s.players pid sc →
      ScoreGeIn (bulletAsteroidPhase s now rng env).1.players pid sc) := by
  have key : ∀ (bs : List BulletRuntime) (acc : HitAcc),
      (ProtectedIn acc.runtime pid now →
        ProtectedIn (List.foldl (processBullet env now s.asteroids) acc bs).runtime
          pid now) ∧
      (AliveIn acc.players pid →
        AliveIn (List.foldl (processBullet env now s.asteroids) acc bs).players pid) ∧
      (ScoreGeIn acc.players pid sc →
        ScoreGeIn (List.foldl (processBullet env now s.asteroids) acc bs).players
          pid sc) := by
    intro bs
    induction bs with
    | nil => exact fun acc => ⟨id, id, id⟩
    | cons b rest ih =>
      intro acc
      rw [List.foldl_cons]
      have hstep :
          (ProtectedIn acc.runtime pid now →
            ProtectedIn (processBullet env now s.asteroids acc b).runtime pid now) ∧
          (AliveIn acc.players pid →
            AliveIn (processBullet env now s.asteroids acc b).players pid) ∧
          (ScoreGeIn acc.players pid sc →
            ScoreGeIn (processBullet env now s.asteroids acc b).players pid sc) := by
        rw [processBullet_eq]
        cases hb : bulletHit s.asteroids b with
        | none => exact ⟨id, id, id⟩
        | some ast => exact processHit_guard env now acc b ast pid sc
      obtain ⟨s1, s2, s3⟩ := hstep
      obtain ⟨i1, i2, i3⟩ := ih (processBullet env now s.asteroids acc b)
      exact ⟨fun h => i1 (s1 h), fun h => i2 (s2 h), fun h => i3 (s3 h)⟩
  exact key s.bullets ⟨[], [], [], [], s.runtime, s.players, s.power_ups, s.next_id, rng⟩

theorem applyPowerUp_inv (kind : PowerUpKind) (t now : ℚ) (rt : PlayerRuntime)
    (ht : now < t) (h : rt.is_invincible now = true) :
    (applyPowerUp kind t rt).is_invincible now = true := by
  cases kind with
  | Shield =>
    simp [applyPowerUp, PlayerRuntime.is_invincible, ht]
  | RapidFire => exact h
  | TripleShot => exact h
  | SpeedBoost => exact h

theorem pickupStep_guard (now : ℚ) (qid : ℕ) (ppos : Vec2) (acc : PickupAcc)
    (pu : PowerUpRuntime) (pid : ℕ)
    (h : ProtectedIn acc.runtime pid now) :
    ProtectedIn (pickupStep now qid ppos acc pu).runtime pid now := by
  simp only [pickupStep]
  split_ifs
  · exact ProtectedIn_updateRt_inv acc.runtime pid qid now
      (applyPowerUp pu.state.kind (now + POWERUP_DURATION_SECS))
      (fun r hr => applyPowerUp_inv _ _ _ _ (by norm_num [POWERUP_DURATION_SECS]) hr) h
  · exact h

theorem powerUpPickupPhase_guard (s : ServerState) (now : ℚ) (pid : ℕ)
    (h : ProtectedIn s.runtime pid now) :
    (powerUpPickupPhase s now).players = s.players ∧
      ProtectedIn (powerUpPickupPhase s now).runtime pid now := by
  refine ⟨rfl, ?_⟩
  have inner : ∀ (pus : List PowerUpRuntime) (qid : ℕ) (ppos : Vec2)
      (acc : PickupAcc), ProtectedIn acc.runtime pid now →
      ProtectedIn (List.foldl (pickupStep now qid ppos) acc pus).runtime pid now := by
    intro pus qid ppos
    induction pus with
    | nil => exact fun acc h => h
    | cons pu rest ih =>
      intro acc hacc
      rw [List.foldl_cons]
      exact ih _ (pickupStep_guard now qid ppos acc pu pid hacc)
  have outer : ∀ (players : List PlayerState) (acc : PickupAcc),
      ProtectedIn acc.runtime pid now →
      ProtectedIn (List.foldl
        (fun acc player =>
          if !player.alive then acc
          else List.foldl (pickupStep now player.id player.pos) acc s.power_ups)
        acc players).runtime pid now := by
    intro players
    induction players with
    | nil => exact fun acc h => h
    | cons player rest ih =>
      intro acc hacc
      rw [List.foldl_cons]
      apply ih
      by_cases ha : (!player.alive) = true
      · rw [if_pos ha]
        exact hacc
      · rw [if_neg ha]
        exact inner s.power_ups player.id player.pos acc hacc
  exact outer s.players ⟨[], s.runtime⟩ h

theorem bulletUpdatePhase_pr (s : ServerState) (dt : ℚ) :
    (bulletUpdatePhase s dt).players = s.players ∧
      (bulletUpdatePhase s dt).runtime = s.runtime := ⟨rfl, rfl⟩

theorem asteroidMovePhase_pr (s : ServerState) (dt : ℚ) :
    (asteroidMovePhase s dt).players = s.players ∧
      (asteroidMovePhase s dt).runtime = s.runtime := ⟨rfl, rfl⟩

theorem powerUpExpiryPhase_pr (s : ServerState) (now : ℚ) :
    (powerUpExpiryPhase s now).players = s.players ∧
      (powerUpExpiryPhase s now).runtime = s.runtime := ⟨rfl, rfl⟩

theorem wavePhase_pr (s : ServerState) (now : ℚ) (rng : Rng) :
    (wavePhase s now rng).1.players = s.players ∧
      (wavePhase s now rng).1.runtime = s.runtime := by
  by_cases he : s.asteroids.isEmpty = true
  · cases hcd : s.wave_countdown with
    | none =>
      simp only [wavePhase, he, if_true, hcd]
      refine ⟨?_, ?_⟩ <;> first | rfl | trivial
    | some tEnd =>
      simp only [wavePhase, he, if_true, hcd]
      split_ifs
      · constructor <;> rw [spawn_asteroids_state]
      · refine ⟨?_, ?_⟩ <;> first | rfl | trivial
  · have hb : s.asteroids.isEmpty = false := by simpa using he
    simp only [wavePhase, hb, Bool.false_eq_true, if_false]
    refine ⟨?_, ?_⟩ <;> first | rfl | trivial

theorem apply_death_guard_ne (st : ServerState) (vid : ℕ) (now : ℚ) (pid sc : ℕ)
    (hne : pid ≠ vid) :
    (ProtectedIn st.runtime pid now →
      ProtectedIn (apply_death st vid now).runtime pid now) ∧
    (AliveIn st.players pid → AliveIn (apply_death st vid now).players pid) ∧
    (ScoreGeIn st.players pid sc →
      ScoreGeIn (apply_death st vid now).players pid sc) := by
  refine ⟨?_, ?_, ?_⟩
  · intro h
    simp only [apply_death]
    exact ProtectedIn_updateRt_ne _ _ _ _ _ hne h
  · intro h
    simp only [apply_death]
    exact AliveIn_updatePlayer_ne _ _ _ _ (fun _ => rfl) (Ne.symm hne) h
  · intro h
    simp only [apply_death]
    exact ScoreGeIn_updatePlayer_ne _ _ _ _ _ (fun _ => rfl) (Ne.symm hne) h

theorem foldl_apply_death_guard (now : ℚ) (pid sc : ℕ) (l : List ℕ)
    (hl : ∀ v ∈ l, v ≠ pid) (st : ServerState) :
    (ProtectedIn st.runtime pid now →
      ProtectedIn (List.foldl (fun st2 v => apply_death st2 v now) st l).runtime
        pid now) ∧
    (AliveIn st.players pid →
      AliveIn (List.foldl (fun st2 v => apply_death st2 v now) st l).players pid) ∧
    (ScoreGeIn st.players pid sc →
      ScoreGeIn (List.foldl (fun st2 v => apply_death st2 v now) st l).players
        pid sc) := by
  induction l generalizing st with
  | nil => exact ⟨id, id, id⟩
  | cons v rest ih =>
    have hv : pid ≠ v := fun hx => hl v (by simp) hx.symm
    have hrest : ∀ w ∈ rest, w ≠ pid := fun w hw => hl w (by simp [hw])
    rw [List.foldl_cons]
    obtain ⟨s1, s2, s3⟩ := apply_death_guard_ne st v now pid sc hv
    obtain ⟨i1, i2, i3⟩ := ih hrest (apply_death st v now)
    exact ⟨fun h => i1 (s1 h), fun h => i2 (s2 h), fun h => i3 (s3 h)⟩

theorem playersKilledByAsteroid_ne (s : ServerState) (now : ℚ) (pid : ℕ)
    (hprot : ProtectedIn s.runtime pid now) :
    ∀ v ∈ playersKilledByAsteroid s now, v ≠ pid := by
  intro v hv hvp
  obtain ⟨p, hpf, hpid⟩ := List.mem_map.mp hv
  obtain ⟨_, hpred⟩ := List.mem_filter.mp hpf
  have h1 := (Bool.and_eq_true _ _).mp hpred
  have h2 := (Bool.and_eq_true _ _).mp h1.1
  have hinv : (!(isInvincibleIn s.runtime p.id now)) = true := h2.2
  rw [hpid, hvp] at hinv
  rw [ProtectedIn_isInvincibleIn s.runtime pid now hprot] at hinv
  simp at hinv

theorem playerAsteroidPhase_guard (s : ServerState) (now : ℚ) (pid sc : ℕ)
    (hprot : ProtectedIn s.runtime pid now) :
    (ProtectedIn (playerAsteroidPhase s now).runtime pid now) ∧
    (AliveIn s.players pid → AliveIn (playerAsteroidPhase s now).players pid) ∧
    (ScoreGeIn s.players pid sc →
      ScoreGeIn (playerAsteroidPhase s now).players pid sc) := by
  obtain ⟨g1, g2, g3⟩ := foldl_apply_death_guard now pid sc
    (playersKilledByAsteroid s now) (playersKilledByAsteroid_ne s now pid hprot) s
  exact ⟨g1 hprot, g2, g3⟩

theorem collectPvp_fst_mem (s : ServerState) (now : ℚ) :
    ∀ kv ∈ (collectPvp s now).1, ∃ b ∈ s.bullets, ∃ v,
      pvpVictim s now b = some v ∧ kv = (v.id, b.state.owner_id) := by
  have key : ∀ (bs : List BulletRuntime) (acc : List (ℕ × ℕ) × List ℕ),
      ∀ kv ∈ (List.foldl
        (fun acc b =>
          match pvpVictim s now b with
          | some victim => (acc.1 ++ [(victim.id, b.state.owner_id)],
                            acc.2 ++ [b.state.id])
          | none => acc)
        acc bs).1,
      kv ∈ acc.1 ∨ ∃ b ∈ bs, ∃ v, pvpVictim s now b = some v ∧
        kv = (v.id, b.state.owner_id) := by
    intro bs
    induction bs with
    | nil => exact fun acc kv hkv => Or.inl hkv
    | cons b rest ih =>
      intro acc kv hkv
      rw [List.foldl_cons] at hkv
      cases hb : pvpVictim s now b with
      | none =>
        rw [hb] at hkv
        rcases ih acc kv hkv with h | ⟨b', hb', v, hv, he⟩
        · exact Or.inl h
        · exact Or.inr ⟨b', by simp [hb'], v, hv, he⟩
      | some v =>
        rw [hb] at hkv
        rcases ih _ kv hkv with h | ⟨b', hb', v', hv', he⟩
        · rcases List.mem_append.mp h with h | h
          · exact Or.inl h
          · refine Or.inr ⟨b, by simp, v, hb, ?_⟩
            simpa using h
        · exact Or.inr ⟨b', by simp [hb'], v', hv', he⟩
  intro kv hkv
  rcases key s.bullets ([], []) kv hkv with h | h
  · exact absurd h (List.not_mem_nil kv)
  · exact h

theorem pvpVictim_not_protected (s : ServerState) (now : ℚ) (b : BulletRuntime)
    (v : PlayerState) (hv : pvpVictim s now b = some v) (pid : ℕ)
    (hprot : ProtectedIn s.runtime pid now) : v.id ≠ pid := by
  intro hvp
  have hpred := List.find?_some hv
  have h1 := (Bool.and_eq_true _ _).mp hpred
  have h2 := (Bool.and_eq_true _ _).mp h1.1
  have hinv : (!(isInvincibleIn s.runtime v.id now)) = true := h2.2
  rw [hvp, ProtectedIn_isInvincibleIn s.runtime pid now hprot] at hinv
  simp at hinv

theorem pvpApplyKill_guard (now : ℚ) (st : ServerState) (kill : ℕ × ℕ)
    (pid sc : ℕ) (hne : kill.1 ≠ pid) :
    (ProtectedIn st.runtime pid now →
      ProtectedIn (pvpApplyKill now st kill).runtime pid now) ∧
    (AliveIn st.players pid → AliveIn (pvpApplyKill now st kill).players pid) ∧
    (ScoreGeIn st.players pid sc →
      ScoreGeIn (pvpApplyKill now st kill).players pid sc) := by
  obtain ⟨d1, d2, d3⟩ := apply_death_guard_ne st kill.1 now pid sc (Ne.symm hne)
  cases hr : lookupRt (apply_death st kill.1 now).runtime kill.2 with
  | none =>
    simp only [pvpApplyKill, hr]
    exact ⟨d1, d2, d3⟩
  | some rt =>
    simp only [pvpApplyKill, hr]
    refine ⟨?_, ?_, ?_⟩
    · intro h
      exact ProtectedIn_updateRt_inv _ pid kill.2 now
        (fun r => { r with kill_streak := r.kill_streak + 1 })
        (fun r hr' => hr') (d1 h)
    · intro h
      exact AliveIn_updatePlayer_mono _ _ _ _ (fun _ => rfl) (fun _ hx => hx) (d2 h)
    · intro h
      exact ScoreGeIn_updatePlayer_mono _ _ _ _ _ (fun _ => rfl)
        (fun p => by
          show p.score ≤ p.score + 200 + _
          omega) (d3 h)

theorem pvpPhase_guard (s : ServerState) (now : ℚ) (pid sc : ℕ)
    (hprot : ProtectedIn s.runtime pid now) :
    (ProtectedIn (pvpPhase s now).runtime pid now) ∧
    (AliveIn s.players pid → AliveIn (pvpPhase s now).players pid) ∧
    (ScoreGeIn s.players pid sc → ScoreGeIn (pvpPhase s now).players pid sc) := by
  have hkills : ∀ kv ∈ (collectPvp s now).1, kv.1 ≠ pid := by
    intro kv hkv
    obtain ⟨b, _, v, hv, he⟩ := collectPvp_fst_mem s now kv hkv
    rw [he]
    exact pvpVictim_not_protected s now b v hv pid hprot
  have key : ∀ (l : List (ℕ × ℕ)) (st : ServerState), (∀ kv ∈ l, kv.1 ≠ pid) →
      (ProtectedIn st.runtime pid now →
        ProtectedIn (List.foldl (pvpApplyKill now) st l).runtime pid now) ∧
      (AliveIn st.players pid →
        AliveIn (List.foldl (pvpApplyKill now) st l).players pid) ∧
      (ScoreGeIn st.players pid sc →
        ScoreGeIn (List.foldl (pvpApplyKill now) st l).players pid sc) := by
    intro l
    induction l with
    | nil => exact fun st _ => ⟨id, id, id⟩
    | cons kv rest ih =>
      intro st hl
      rw [List.foldl_cons]
      obtain ⟨s1, s2, s3⟩ := pvpApplyKill_guard now st kv pid sc (hl kv (by simp))
      obtain ⟨i1, i2, i3⟩ := ih (pvpApplyKill now st kv)
        (fun w hw => hl w (by simp [hw]))
      exact ⟨fun h => i1 (s1 h), fun h => i2 (s2 h), fun h => i3 (s3 h)⟩
  obtain ⟨g1, g2, g3⟩ := key (collectPvp s now).1 s hkills
  exact ⟨g1 hprot, g2, g3⟩

set_option maxHeartbeats 2000000 in
/-- C1: in every tick, a player whose spawn-invincibility or shield is
active and unexpired at the tick instant (`ProtectedIn`) is never killed by
a player-asteroid collision or by another player's bullet: every player
record carrying that id that was alive before the tick is still alive after
the whole tick, and the player's score is never decreased by the tick (no
death penalty is applied; it can only grow by the player's own kills),
regardless of positional overlap. -/
theorem c1_invincibility_protection (s : ServerState) (now dt : ℚ) (rng : Rng)
    (env : Env) (pid : ℕ)
    (hprot : ProtectedIn s.runtime pid now)
    (halive : AliveIn s.players pid) :
    AliveIn (tick s now dt rng env).1.players pid ∧
    ∀ sc : ℕ, ScoreGeIn s.players pid sc →
      ScoreGeIn (tick s now dt rng env).1.players pid sc := by
  have main : ∀ sc : ℕ,
      AliveIn (tick s now dt rng env).1.players pid ∧
      (ScoreGeIn s.players pid sc →
        ScoreGeIn (tick s now dt rng env).1.players pid sc) := by
    intro sc
    set sA := (respawnPhase s now rng).1 with hsA
    set rA := (respawnPhase s now rng).2 with hrA
    obtain ⟨g1p, g1a, g1s⟩ := respawnPhase_guard s now rng pid sc
    set sB := syncPhase sA now with hsB
    obtain ⟨g2r, g2a, g2s⟩ := syncPhase_guard sA now pid sc
    set sC := movementPhase sB now dt env with hsC
    obtain ⟨g3p, g3a, g3s⟩ := movementPhase_guard sB now dt env pid sc
    set sD := bulletUpdatePhase sC dt with hsD
    set sE := asteroidMovePhase sD dt with hsE
    set sF := powerUpExpiryPhase sE now with hsF
    set sG := (bulletAsteroidPhase sF now rA env).1 with hsG
    set rB := (bulletAsteroidPhase sF now rA env).2 with hrB
    obtain ⟨g7p, g7a, g7s⟩ := bulletAsteroidPhase_guard sF now rA env pid sc
    -- protection chain up to the pickup phase
    have pA : ProtectedIn sA.runtime pid now := g1p hprot
    have pB : ProtectedIn sB.runtime pid now := by rw [hsB, g2r]; exact pA
    have pC : ProtectedIn sC.runtime pid now := g3p pB
    have pF : ProtectedIn sF.runtime pid now := by
      rw [hsF, (powerUpExpiryPhase_pr sE now).2, hsE,
        (asteroidMovePhase_pr sD dt).2, hsD, (bulletUpdatePhase_pr sC dt).2]
      exact pC
    have pG : ProtectedIn sG.runtime pid now := g7p pF
    set sH := powerUpPickupPhase sG now with hsH
    obtain ⟨h8pl, pH⟩ := powerUpPickupPhase_guard sG now pid pG
    set sI := playerAsteroidPhase sH now with hsI
    obtain ⟨pI, g9a, g9s⟩ := playerAsteroidPhase_guard sH now pid sc pH
    set sJ := pvpPhase sI now with hsJ
    obtain ⟨pJ, g10a, g10s⟩ := pvpPhase_guard sI now pid sc pI
    have htickp : (tick s now dt rng env).1.players = (wavePhase sJ now rB).1.players :=
      rfl
    have hwp := (wavePhase_pr sJ now rB).1
    -- alive chain
    have aA : AliveIn sA.players pid := g1a halive
    have aB : AliveIn sB.players pid := g2a aA
    have aC : AliveIn sC.players pid := g3a aB
    have aF : AliveIn sF.players pid := by
      rw [hsF, (powerUpExpiryPhase_pr sE now).1, hsE,
        (asteroidMovePhase_pr sD dt).1, hsD, (bulletUpdatePhase_pr sC dt).1]
      exact aC
    have aG : AliveIn sG.players pid := g7a aF
    have aH : AliveIn sH.players pid := by rw [hsH, h8pl]; exact aG
    have aI : AliveIn sI.players pid := g9a aH
    have aJ : AliveIn sJ.players pid := g10a aI
    constructor
    · rw [htickp, hwp]
      exact aJ
    · intro hsc
      have cA : ScoreGeIn sA.players pid sc := g1s hsc
      have cB : ScoreGeIn sB.players pid sc := g2s cA
      have cC : ScoreGeIn sC.players pid sc := g3s cB
      have cF : ScoreGeIn sF.players pid sc := by
        rw [hsF, (powerUpExpiryPhase_pr sE now).1, hsE,
          (asteroidMovePhase_pr sD dt).1, hsD, (bulletUpdatePhase_pr sC dt).1]
        exact cC
      have cG : ScoreGeIn sG.players pid sc := g7s cF
      have cH : ScoreGeIn sH.players pid sc := by rw [hsH, h8pl]; exact cG
      have cI : ScoreGeIn sI.players pid sc := g9s cH
      have cJ : ScoreGeIn sJ.players pid sc := g10s cI
      rw [htickp, hwp]
      exact cJ
  exact ⟨(main 0).1, fun sc => (main sc).2⟩

/-- C1 witness: the protection theorem applied at the concrete state `cs1`,
where the shield-protected living player 1 overlaps both an asteroid and an
enemy bullet at tick time 0. -/
theorem c1_witness :
    (ProtectedIn cs1.runtime 1 0 ∧ AliveIn cs1.players 1) ∧
    (AliveIn (tick cs1 0 (1/20) rng0 env0).1.players 1 ∧
      ∀ sc : ℕ, ScoreGeIn cs1.players 1 sc →
        ScoreGeIn (tick cs1 0 (1/20) rng0 env0).1.players 1 sc) := by
  have hq : ((0 : ℚ) < 10) := by norm_num
  have hp : ProtectedIn cs1.runtime 1 0 :=
    ⟨crt1, rfl, by simp [crt1, PlayerRuntime.new, PlayerRuntime.is_invincible, hq]⟩
  have ha : AliveIn cs1.players 1 := by decide
  exact ⟨⟨hp, ha⟩, c1_invincibility_protection cs1 0 (1/20) rng0 env0 1 hp ha⟩

/-! ## C10: id freshness -/

theorem IdExtends_refl (A : ServerState) : IdExtends A A :=
  ⟨le_refl _, fun h => ⟨h, fun i _ hni => absurd (by assumption) hni⟩⟩

theorem IdExtends_trans {A B C : ServerState} (h1 : IdExtends A B)
    (h2 : IdExtends B C) : IdExtends A C := by
  obtain ⟨n1, r1⟩ := h1
  obtain ⟨n2, r2⟩ := h2
  refine ⟨le_trans n1 n2, fun hA => ?_⟩
  obtain ⟨hB, f1⟩ := r1 hA
  obtain ⟨hC, f2⟩ := r2 hB
  refine ⟨hC, fun i hi hni => ?_⟩
  by_cases hmem : i ∈ idsAll B
  · exact f1 i hmem hni
  · exact le_trans n1 (f2 i hi hmem)

theorem IdExtends_of_eq {A B : ServerState} (hids : idsAll B = idsAll A)
    (hnid : B.next_id = A.next_id)
    (hpl : B.players.map (·.id) = A.players.map (·.id))
    (hcl : B.clients = A.clients) : IdExtends A B := by
  refine ⟨le_of_eq hnid.symm, fun hA => ?_⟩
  obtain ⟨hnd, hb, hpc⟩ := hA
  refine ⟨⟨by rw [hids]; exact hnd, by rw [hids, hnid]; exact hb, ?_⟩,
    fun i hi hni => absurd (hids ▸ hi) hni⟩
  intro p hp
  have : p.id ∈ B.players.map (·.id) := List.mem_map.mpr ⟨p, hp, rfl⟩
  rw [hpl] at this
  obtain ⟨q, hq, hqe⟩ := List.mem_map.mp this
  rw [hcl, ← hqe]
  exact hpc q hq

theorem nodup_append_bounded (X Y : List ℕ) (m : ℕ) (hX : X.Nodup) (hY : Y.Nodup)
    (hXb : ∀ i ∈ X, i < m) (hYb : ∀ j ∈ Y, m ≤ j) : (X ++ Y).Nodup := by
  rw [List.nodup_append]
  refine ⟨hX, hY, fun i hiX hiY => ?_⟩
  exact absurd (hYb i hiY) (not_le.mpr (hXb i hiX))

theorem spawn_asteroids_ids (n : ℕ) (s : ServerState) (rng : Rng) :
    (spawn_asteroids n s rng).1.map (·.id) = List.range' s.next_id n := by
  induction n generalizing s rng with
  | zero => rfl
  | succ m ih =>
    simp only [spawn_asteroids, next_entity_id, Rng.draw, Rng.drawNat,
      List.map_cons, List.range']
    congr 1
    exact ih _ _

theorem ServerState_new_IdInv (rng : Rng) : IdInv (ServerState.new rng).1 := by
  have hids : (ServerState.new rng).1.asteroids.map (·.id) = List.range' 1 ASTEROID_COUNT := by
    simp only [ServerState.new]
    exact spawn_asteroids_ids ASTEROID_COUNT _ rng
  have hall : idsAll (ServerState.new rng).1 = List.range' 1 ASTEROID_COUNT := by
    simp only [idsAll]
    rw [show (ServerState.new rng).1.clients = [] from by
        simp only [ServerState.new]; rw [spawn_asteroids_state],
      show (ServerState.new rng).1.bullets = [] from by
        simp only [ServerState.new]; rw [spawn_asteroids_state],
      show (ServerState.new rng).1.power_ups = [] from by
        simp only [ServerState.new]; rw [spawn_asteroids_state],
      hids]
    simp
  refine ⟨?_, ?_, ?_⟩
  · rw [hall]
    exact List.nodup_range' 1 ASTEROID_COUNT
  · intro i hi
    rw [hall, List.mem_range'_1] at hi
    rw [ServerState_new_next_id]
    omega
  · intro p hp
    have : (ServerState.new rng).1.players = [] := by
      simp only [ServerState.new]
      rw [spawn_asteroids_state]
    rw [this] at hp
    exact absurd hp (List.not_mem_nil p)

theorem connectClient_IdExtends (s : ServerState) :
    IdExtends s (connectClient s).2 ∧ (connectClient s).1.1 = s.next_id ∧
      (connectClient s).2.next_id = s.next_id + 1 := by
  refine ⟨⟨Nat.le_succ _, fun hA => ?_⟩, rfl, rfl⟩
  obtain ⟨hnd, hb, hpc⟩ := hA
  have hall : idsAll (connectClient s).2 =
      (s.clients ++ [s.next_id]) ++ s.bullets.map (·.state.id)
        ++ s.asteroids.map (·.id) ++ s.power_ups.map (·.state.id) := rfl
  have hperm : List.Perm (idsAll (connectClient s).2) (idsAll s ++ [s.next_id]) := by
    rw [hall, idsAll]
    simp only [List.append_assoc]
    refine List.Perm.append_left s.clients ?_
    refine List.Perm.trans (@List.perm_append_comm ℕ [s.next_id] _) ?_
    simp [List.append_assoc]
  refine ⟨⟨?_, ?_, ?_⟩, ?_⟩
  · refine hperm.nodup_iff.mpr ?_
    exact nodup_append_bounded _ _ s.next_id hnd (List.nodup_singleton _) hb
      (by intro j hj; simp at hj; omega)
  · intro i hi
    have := hperm.mem_iff.mp hi
    rcases List.mem_append.mp this with h | h
    · exact lt_trans (hb i h) (Nat.lt_succ_self _)
    · simp at h
      subst h
      exact Nat.lt_succ_self _
  · intro p hp
    have : (connectClient s).2.players = s.players := rfl
    rw [this] at hp
    have h1 := hpc p hp
    show p.id ∈ s.clients ++ [s.next_id]
    exact List.mem_append_left _ h1
  · intro i hi hni
    have := hperm.mem_iff.mp hi
    rcases List.mem_append.mp this with h | h
    · exact absurd h hni
    · simp at h
      omega

theorem joinPlayer_IdExtends (s : ServerState) (id : ℕ) (now : ℚ) (rng : Rng)
    (hid : id ∈ s.clients) : IdExtends s (joinPlayer s id now rng).1 := by
  by_cases hexist : (lookupPlayer s.players id).isSome
  · simp only [joinPlayer, hexist, if_true]
    exact IdExtends_refl s
  · simp only [joinPlayer, hexist, Bool.false_eq_true, if_false]
    refine ⟨le_refl _, fun hA => ?_⟩
    obtain ⟨hnd, hb, hpc⟩ := hA
    refine ⟨⟨hnd, hb, ?_⟩, fun i hi hni => absurd hi hni⟩
    intro p hp
    rcases List.mem_append.mp hp with h | h
    · exact hpc p h
    · simp only [List.mem_singleton] at h
      rw [h]
      have : (spawn_player id s.asteroids rng).1.id = id := by
        simp [spawn_player]
      rw [this]
      exact hid

theorem map_map_eq {α β : Type} (l : List α) (f : α → α) (g : α → β)
    (h : ∀ x, g (f x) = g x) : (l.map f).map g = l.map g := by
  induction l with
  | nil => rfl
  | cons x rest ih =>
    simp only [List.map_cons, h x, ih]

theorem perm_shuffle (a b c d : List ℕ) :
    List.Perm ((a ++ b) ++ (c ++ d)) ((a ++ c) ++ (b ++ d)) := by
  calc (a ++ b) ++ (c ++ d)
      = a ++ (b ++ c ++ d) := by simp [List.append_assoc]
    _ = a ++ ((b ++ c) ++ d) := by simp [List.append_assoc]
  refine List.Perm.trans (List.Perm.append_left a
    (List.Perm.append_right d (@List.perm_append_comm ℕ b c))) ?_
  simp [List.append_assoc]

theorem IdExtends_of_perm_sub_fresh (A B : ServerState) (sub fresh : List ℕ)
    (hperm : List.Perm (idsAll B) (sub ++ fresh))
    (hsub : sub.Sublist (idsAll A))
    (hfnd : fresh.Nodup)
    (hfb : ∀ i ∈ fresh, A.next_id ≤ i ∧ i < B.next_id)
    (hnid : A.next_id ≤ B.next_id)
    (hpl : B.players.map (·.id) = A.players.map (·.id))
    (hcl : B.clients = A.clients) : IdExtends A B := by
  refine ⟨hnid, fun hA => ?_⟩
  obtain ⟨hnd, hb, hpc⟩ := hA
  have hsubnd : sub.Nodup := hnd.sublist hsub
  have hsubb : ∀ i ∈ sub, i < A.next_id := fun i hi => hb i (hsub.mem hi)
  have hnodup : (idsAll B).Nodup := by
    refine hperm.nodup_iff.mpr ?_
    exact nodup_append_bounded sub fresh A.next_id hsubnd hfnd hsubb
      (fun j hj => (hfb j hj).1)
  refine ⟨⟨hnodup, ?_, ?_⟩, ?_⟩
  · intro i hi
    rcases List.mem_append.mp (hperm.mem_iff.mp hi) with h | h
    · exact lt_of_lt_of_le (hsubb i h) hnid
    · exact (hfb i h).2
  · intro p hp
    have : p.id ∈ B.players.map (·.id) := List.mem_map.mpr ⟨p, hp, rfl⟩
    rw [hpl] at this
    obtain ⟨q, hq, hqe⟩ := List.mem_map.mp this
    rw [hcl, ← hqe]
    exact hpc q hq
  · intro i hi hni
    rcases List.mem_append.mp (hperm.mem_iff.mp hi) with h | h
    · exact absurd (hsub.mem h) hni
    · exact (hfb i h).1

theorem IdExtends_of_sublist (A B : ServerState)
    (hsub : (idsAll B).Sublist (idsAll A)) (hnid : B.next_id = A.next_id)
    (hpl : B.players.map (·.id) = A.players.map (·.id))
    (hcl : B.clients = A.clients) : IdExtends A B := by
  refine IdExtends_of_perm_sub_fresh A B (idsAll B) [] (by simp) hsub
    (List.nodup_nil) (fun i hi => absurd hi (List.not_mem_nil i))
    (le_of_eq hnid.symm) hpl hcl

theorem respawnPhase_players_ids (s : ServerState) (now : ℚ) (rng : Rng) :
    (respawnPhase s now rng).1.players.map (·.id) = s.players.map (·.id) := by
  have key : ∀ (ids : List ℕ) (acc : List PlayerState × List (ℕ × PlayerRuntime) × Rng),
      (List.foldl (respawnStep s.asteroids now) acc ids).1.map (·.id)
        = acc.1.map (·.id) := by
    intro ids
    induction ids with
    | nil => exact fun acc => rfl
    | cons q rest ih =>
      intro acc
      rw [List.foldl_cons, ih]
      cases hp : lookupPlayer acc.1 q with
      | none => simp only [respawnStep, hp]
      | some p =>
        simp only [respawnStep, hp]
        exact updatePlayer_ids _ _ _ (fun _ => rfl)
  exact key (respawnDue s.runtime now) _

theorem respawnPhase_IdExtends (s : ServerState) (now : ℚ) (rng : Rng) :
    IdExtends s (respawnPhase s now rng).1 :=
  IdExtends_of_eq rfl rfl (respawnPhase_players_ids s now rng) rfl

theorem syncPhase_IdExtends (s : ServerState) (now : ℚ) :
    IdExtends s (syncPhase s now) :=
  IdExtends_of_eq rfl rfl
    (map_map_eq s.players (syncPlayer s.runtime now) (·.id)
      (fun p => (syncPlayer_fields s.runtime now p).1)) rfl

theorem idsAll_sublist_of_components (A B : ServerState)
    (hc : B.clients = A.clients)
    (hb : (B.bullets.map (·.state.id)).Sublist (A.bullets.map (·.state.id)))
    (ha : (B.asteroids.map (·.id)).Sublist (A.asteroids.map (·.id)))
    (hp : (B.power_ups.map (·.state.id)).Sublist (A.power_ups.map (·.state.id))) :
    (idsAll B).Sublist (idsAll A) := by
  rw [idsAll, idsAll, hc]
  exact (((List.Sublist.refl A.clients).append hb).append ha).append hp

theorem map_filter_sublist {α β : Type} (f : α → α) (p : α → Bool) (g : α → β)
    (l : List α) (h : ∀ a, g (f a) = g a) :
    (((l.map f).filter p).map g).Sublist (l.map g) := by
  have h1 : (((l.map f).filter p).map g).Sublist ((l.map f).map g) :=
    List.Sublist.map g (List.filter_sublist _)
  rw [map_map_eq l f g h] at h1
  exact h1

theorem bulletUpdatePhase_IdExtends (s : ServerState) (dt : ℚ) :
    IdExtends s (bulletUpdatePhase s dt) := by
  refine IdExtends_of_sublist s _ ?_ rfl rfl rfl
  refine idsAll_sublist_of_components s _ rfl ?_ (List.Sublist.refl _)
    (List.Sublist.refl _)
  simp only [bulletUpdatePhase]
  exact map_filter_sublist _ _ _ s.bullets (fun b => rfl)

theorem asteroidMovePhase_IdExtends (s : ServerState) (dt : ℚ) :
    IdExtends s (asteroidMovePhase s dt) := by
  refine IdExtends_of_eq ?_ rfl rfl rfl
  simp only [idsAll, asteroidMovePhase]
  rw [map_map_eq s.asteroids
    (fun a => { a with pos := wrap_position (a.pos.add (a.vel.scale dt)) })
    (fun a => a.id) (fun a => rfl)]

theorem powerUpExpiryPhase_IdExtends (s : ServerState) (now : ℚ) :
    IdExtends s (powerUpExpiryPhase s now) := by
  refine IdExtends_of_sublist s _ ?_ rfl rfl rfl
  exact idsAll_sublist_of_components s _ rfl (List.Sublist.refl _)
    (List.Sublist.refl _) (List.Sublist.map _ (List.filter_sublist _))

theorem powerUpPickupPhase_IdExtends (s : ServerState) (now : ℚ) :
    IdExtends s (powerUpPickupPhase s now) := by
  refine IdExtends_of_sublist s _ ?_ rfl rfl rfl
  exact idsAll_sublist_of_components s _ rfl (List.Sublist.refl _)
    (List.Sublist.refl _) (List.Sublist.map _ (List.filter_sublist _))

theorem idsAll_congr (A B : ServerState) (hc : B.clients = A.clients)
    (hb : B.bullets = A.bullets) (ha : B.asteroids = A.asteroids)
    (hp : B.power_ups = A.power_ups) : idsAll B = idsAll A := by
  rw [idsAll, idsAll, hc, hb, ha, hp]

theorem apply_death_skeleton (s : ServerState) (victim_id : ℕ) (now : ℚ) :
    (apply_death s victim_id now).clients = s.clients ∧
    (apply_death s victim_id now).next_id = s.next_id ∧
    (apply_death s victim_id now).players.map (·.id) = s.players.map (·.id) ∧
    (apply_death s victim_id now).bullets = s.bullets ∧
    (apply_death s victim_id now).asteroids = s.asteroids ∧
    (apply_death s victim_id now).power_ups = s.power_ups :=
  ⟨rfl, rfl, updatePlayer_ids _ _ _ (fun _ => rfl), rfl, rfl, rfl⟩

theorem foldl_apply_death_skeleton (pids : List ℕ) (s : ServerState) (now : ℚ) :
    (pids.foldl (fun st pid => apply_death st pid now) s).clients = s.clients ∧
    (pids.foldl (fun st pid => apply_death st pid now) s).next_id = s.next_id ∧
    (pids.foldl (fun st pid => apply_death st pid now) s).players.map (·.id)
      = s.players.map (·.id) ∧
    (pids.foldl (fun st pid => apply_death st pid now) s).bullets = s.bullets ∧
    (pids.foldl (fun st pid => apply_death st pid now) s).asteroids = s.asteroids ∧
    (pids.foldl (fun st pid => apply_death st pid now) s).power_ups = s.power_ups := by
  induction pids generalizing s with
  | nil => exact ⟨rfl, rfl, rfl, rfl, rfl, rfl⟩
  | cons q rest ih =>
    have h := apply_death_skeleton s q now
    have h2 := ih (apply_death s q now)
    simp only [List.foldl_cons]
    exact ⟨h2.1.trans h.1, h2.2.1.trans h.2.1, h2.2.2.1.trans h.2.2.1,
      h2.2.2.2.1.trans h.2.2.2.1, h2.2.2.2.2.1.trans h.2.2.2.2.1,
      h2.2.2.2.2.2.trans h.2.2.2.2.2⟩

theorem playerAsteroidPhase_IdExtends (s : ServerState) (now : ℚ) :
    IdExtends s (playerAsteroidPhase s now) := by
  have h := foldl_apply_death_skeleton (playersKilledByAsteroid s now) s now
  exact IdExtends_of_eq
    (idsAll_congr _ _ h.1 h.2.2.2.1 h.2.2.2.2.1 h.2.2.2.2.2)
    h.2.1 h.2.2.1 h.1

theorem pvpApplyKill_skeleton (now : ℚ) (st : ServerState) (kill : ℕ × ℕ) :
    (pvpApplyKill now st kill).clients = st.clients ∧
    (pvpApplyKill now st kill).next_id = st.next_id ∧
    (pvpApplyKill now st kill).players.map (·.id) = st.players.map (·.id) ∧
    (pvpApplyKill now st kill).bullets = st.bullets ∧
    (pvpApplyKill now st kill).asteroids = st.asteroids ∧
    (pvpApplyKill now st kill).power_ups = st.power_ups := by
  have h := apply_death_skeleton st kill.1 now
  cases hr : lookupRt (apply_death st kill.1 now).runtime kill.2 with
  | none =>
    simp only [pvpApplyKill, hr]
    exact h
  | some rt =>
    simp only [pvpApplyKill, hr]
    exact ⟨h.1, h.2.1,
      (updatePlayer_ids _ kill.2
        (fun shooter => { shooter with
            score := shooter.score + 200 +
              (if (rt.kill_streak + 1) % KILL_STREAK_BONUS_INTERVAL == 0 then
                  KILL_STREAK_BONUS_POINTS else 0),
            kill_streak := rt.kill_streak + 1 })
        (fun p => rfl)).trans h.2.2.1,
      h.2.2.2.1, h.2.2.2.2.1, h.2.2.2.2.2⟩

theorem foldl_pvpApplyKill_skeleton (kills : List (ℕ × ℕ)) (s : ServerState)
    (now : ℚ) :
    (kills.foldl (pvpApplyKill now) s).clients = s.clients ∧
    (kills.foldl (pvpApplyKill now) s).next_id = s.next_id ∧
    (kills.foldl (pvpApplyKill now) s).players.map (·.id) = s.players.map (·.id) ∧
    (kills.foldl (pvpApplyKill now) s).bullets = s.bullets ∧
    (kills.foldl (pvpApplyKill now) s).asteroids = s.asteroids ∧
    (kills.foldl (pvpApplyKill now) s).power_ups = s.power_ups := by
  induction kills generalizing s with
  | nil => exact ⟨rfl, rfl, rfl, rfl, rfl, rfl⟩
  | cons k rest ih =>
    have h := pvpApplyKill_skeleton now s k
    have h2 := ih (pvpApplyKill now s k)
    simp only [List.foldl_cons]
    exact ⟨h2.1.trans h.1, h2.2.1.trans h.2.1, h2.2.2.1.trans h.2.2.1,
      h2.2.2.2.1.trans h.2.2.2.1, h2.2.2.2.2.1.trans h.2.2.2.2.1,
      h2.2.2.2.2.2.trans h.2.2.2.2.2⟩

theorem pvpPhase_IdExtends (s : ServerState) (now : ℚ) :
    IdExtends s (pvpPhase s now) := by
  have h := foldl_pvpApplyKill_skeleton (collectPvp s now).1 s now
  have hb : (pvpPhase s now).bullets
      = s.bullets.filter fun b => decide (b.state.id ∉ (collectPvp s now).2) := by
    show ((collectPvp s now).1.foldl (pvpApplyKill now) s).bullets.filter _ = _
    rw [h.2.2.2.1]
  refine IdExtends_of_sublist s _ ?_ h.2.1 h.2.2.1 h.1
  refine idsAll_sublist_of_components s _ h.1 ?_ ?_ ?_
  · rw [hb]
    exact List.Sublist.map _ (List.filter_sublist _)
  · rw [show (pvpPhase s now).asteroids
        = ((collectPvp s now).1.foldl (pvpApplyKill now) s).asteroids from rfl,
      h.2.2.2.2.1]
  · rw [show (pvpPhase s now).power_ups
        = ((collectPvp s now).1.foldl (pvpApplyKill now) s).power_ups from rfl,
      h.2.2.2.2.2]

theorem fold_alloc_gen (mk : ℕ → ℚ → BulletRuntime)
    (hmk : ∀ n a, (mk n a).state.id = n) (angles : List ℚ)
    (bacc : List BulletRuntime × ℕ) :
    bacc.2 ≤ (angles.foldl
        (fun bacc angle => (bacc.1 ++ [mk bacc.2 angle], bacc.2 + 1)) bacc).2 ∧
    (angles.foldl
        (fun bacc angle => (bacc.1 ++ [mk bacc.2 angle], bacc.2 + 1)) bacc).1.map
        (·.state.id)
      = bacc.1.map (·.state.id)
        ++ List.range' bacc.2
          ((angles.foldl
              (fun bacc angle => (bacc.1 ++ [mk bacc.2 angle], bacc.2 + 1)) bacc).2
            - bacc.2) := by
  induction angles generalizing bacc with
  | nil => simp
  | cons a rest ih =>
    simp only [List.foldl_cons]
    obtain ⟨h1, h2⟩ := ih (bacc.1 ++ [mk bacc.2 a], bacc.2 + 1)
    dsimp only at h1 h2 ⊢
    refine ⟨le_trans (Nat.le_succ _) h1, ?_⟩
    rw [h2, List.map_append]
    rw [List.append_assoc]
    congr 1
    rw [show (List.foldl
        (fun bacc angle => (bacc.1 ++ [mk bacc.2 angle], bacc.2 + 1))
        (bacc.1 ++ [mk bacc.2 a], bacc.2 + 1) rest).2 - bacc.2
      = ((List.foldl
          (fun bacc angle => (bacc.1 ++ [mk bacc.2 angle], bacc.2 + 1))
          (bacc.1 ++ [mk bacc.2 a], bacc.2 + 1) rest).2 - (bacc.2 + 1)) + 1
      from by omega]
    rw [List.range'_succ, List.map_cons, List.map_nil, hmk, List.singleton_append]

theorem fireFrom_alloc (env : Env) (pid : ℕ) (pos : Vec2) (angle' : ℚ)
    (triple : Bool) (bullets : List BulletRuntime) (nid : ℕ) :
    nid ≤ (fireFrom env pid pos angle' triple bullets nid).2 ∧
    (fireFrom env pid pos angle' triple bullets nid).1.map (·.state.id)
      = bullets.map (·.state.id)
        ++ List.range' nid ((fireFrom env pid pos angle' triple bullets nid).2 - nid) :=
  fold_alloc_gen
    (fun n angle =>
      { state := { id := n, owner_id := pid, pos := pos,
                   vel := (Vec2.mk (env.cos angle) (env.sin angle)).scale BULLET_SPEED },
        ttl := BULLET_TTL })
    (fun _ _ => rfl) _ (bullets, nid)

theorem moveStep_alloc (env : Env) (now dt : ℚ) (acc : MoveAcc) (pid : ℕ) :
    (moveStep env now dt acc pid).players.map (·.id) = acc.players.map (·.id) ∧
    acc.next_id ≤ (moveStep env now dt acc pid).next_id ∧
    (moveStep env now dt acc pid).bullets.map (·.state.id)
      = acc.bullets.map (·.state.id)
        ++ List.range' acc.next_id
            ((moveStep env now dt acc pid).next_id - acc.next_id) := by
  cases hp : lookupPlayer acc.players pid with
  | none =>
    have he : moveStep env now dt acc pid = acc := by
      cases hr : lookupRt acc.runtime pid <;> simp only [moveStep, hp, hr]
    rw [he]
    exact ⟨rfl, le_refl _, by simp⟩
  | some player =>
    cases hr : lookupRt acc.runtime pid with
    | none =>
      have he : moveStep env now dt acc pid = acc := by
        simp only [moveStep, hp, hr]
      rw [he]
      exact ⟨rfl, le_refl _, by simp⟩
    | some rt =>
      simp only [moveStep, hp, hr]
      split_ifs
      all_goals refine ⟨?_, ?_, ?_⟩
      all_goals first
        | rfl
        | exact updatePlayer_ids _ _ _ (fun p => rfl)
        | exact (fireFrom_alloc env pid _ _ _ acc.bullets acc.next_id).1
        | exact (fireFrom_alloc env pid _ _ _ acc.bullets acc.next_id).2
        | exact le_refl _
        | simp

theorem foldl_moveStep_alloc (env : Env) (now dt : ℚ) (ids : List ℕ)
    (acc : MoveAcc) :
    (ids.foldl (moveStep env now dt) acc).players.map (·.id)
      = acc.players.map (·.id) ∧
    acc.next_id ≤ (ids.foldl (moveStep env now dt) acc).next_id ∧
    (ids.foldl (moveStep env now dt) acc).bullets.map (·.state.id)
      = acc.bullets.map (·.state.id)
        ++ List.range' acc.next_id
            ((ids.foldl (moveStep env now dt) acc).next_id - acc.next_id) := by
  induction ids generalizing acc with
  | nil => exact ⟨rfl, le_refl _, by simp⟩
  | cons q rest ih =>
    simp only [List.foldl_cons]
    obtain ⟨s1, s2, s3⟩ := moveStep_alloc env now dt acc q
    obtain ⟨i1, i2, i3⟩ := ih (moveStep env now dt acc q)
    refine ⟨i1.trans s1, le_trans s2 i2, ?_⟩
    rw [i3, s3, List.append_assoc]
    congr 1
    have key := List.range'_append_1 acc.next_id
      ((moveStep env now dt acc q).next_id - acc.next_id)
      ((rest.foldl (moveStep env now dt) (moveStep env now dt acc q)).next_id
        - (moveStep env now dt acc q).next_id)
    rw [show acc.next_id + ((moveStep env now dt acc q).next_id - acc.next_id)
        = (moveStep env now dt acc q).next_id from by omega] at key
    rw [key]
    congr 1
    omega

theorem movementPhase_IdExtends (s : ServerState) (now dt : ℚ) (env : Env) :
    IdExtends s (movementPhase s now dt env) := by
  obtain ⟨h1, h2, h3⟩ := foldl_moveStep_alloc env now dt (s.players.map (·.id))
    ⟨s.players, s.runtime, s.bullets, s.next_id⟩
  have hnid : (movementPhase s now dt env).next_id
      = ((s.players.map (·.id)).foldl (moveStep env now dt)
          ⟨s.players, s.runtime, s.bullets, s.next_id⟩).next_id := rfl
  refine IdExtends_of_perm_sub_fresh s _ (idsAll s)
    (List.range' s.next_id ((movementPhase s now dt env).next_id - s.next_id))
    ?_ (List.Sublist.refl _) (List.nodup_range' ..) ?_ (hnid ▸ h2) h1 rfl
  · have hbul : (movementPhase s now dt env).bullets.map (·.state.id)
        = s.bullets.map (·.state.id)
          ++ List.range' s.next_id
              ((movementPhase s now dt env).next_id - s.next_id) := by
      rw [hnid]
      exact h3
    have hids : idsAll (movementPhase s now dt env)
        = s.clients ++ (s.bullets.map (·.state.id)
            ++ List.range' s.next_id
                ((movementPhase s now dt env).next_id - s.next_id))
          ++ s.asteroids.map (·.id) ++ s.power_ups.map (·.state.id) := by
      rw [idsAll, hbul]
      rfl
    rw [hids, idsAll, List.perm_iff_count]
    intro x
    simp only [List.count_append]
    omega
  · intro i hi
    rw [List.mem_range'_1] at hi
    rw [hnid] at hi ⊢
    refine ⟨hi.1, ?_⟩
    omega

theorem wavePhase_IdExtends (s : ServerState) (now : ℚ) (rng : Rng) :
    IdExtends s (wavePhase s now rng).1 := by
  by_cases hb : s.asteroids.isEmpty = true
  · have hast : s.asteroids = [] := by
      cases h : s.asteroids with
      | nil => rfl
      | cons a t => rw [h] at hb; simp at hb
    cases hcd : s.wave_countdown with
    | none =>
      simp only [wavePhase, hb, if_true, hcd]
      exact IdExtends_of_eq rfl rfl rfl rfl
    | some tEnd =>
      by_cases hge : now ≥ tEnd
      · simp only [wavePhase, hb, if_true, hcd, ge_iff_le, hge, if_pos]
        rw [← hcd]
        rcases hsp : spawn_asteroids
            (min (ASTEROID_COUNT + (s.current_wave + 1 - 1) * ASTEROIDS_PER_WAVE) 100)
            { s with current_wave := s.current_wave + 1 } rng with ⟨asts, s2, rng2⟩
        have hstate := spawn_asteroids_state
          (min (ASTEROID_COUNT + (s.current_wave + 1 - 1) * ASTEROIDS_PER_WAVE) 100)
          { s with current_wave := s.current_wave + 1 } rng
        have hai := spawn_asteroids_ids
          (min (ASTEROID_COUNT + (s.current_wave + 1 - 1) * ASTEROIDS_PER_WAVE) 100)
          { s with current_wave := s.current_wave + 1 } rng
        rw [hsp] at hstate hai
        dsimp only at hstate hai
        dsimp only
        subst hstate
        refine IdExtends_of_perm_sub_fresh s _ (idsAll s)
          (List.range' s.next_id
            (min (ASTEROID_COUNT + (s.current_wave + 1 - 1) * ASTEROIDS_PER_WAVE) 100))
          ?_ (List.Sublist.refl _) (List.nodup_range' ..) ?_
          (Nat.le_add_right _ _) rfl rfl
        · simp only [idsAll]
          rw [hai, List.perm_iff_count]
          intro x
          simp only [List.count_append, hast, List.map_nil, List.count_nil]
          omega
        · intro i hi
          rw [List.mem_range'_1] at hi
          exact ⟨hi.1, hi.2⟩
      · simp only [wavePhase, hb, if_true, hcd]
        rw [if_neg hge]
        exact IdExtends_refl s
  · have hb' : s.asteroids.isEmpty = false := by
      cases h : s.asteroids with
      | nil => rw [h] at hb; exact absurd rfl hb
      | cons a t => rfl
    simp only [wavePhase, hb', Bool.false_eq_true, if_false]
    exact IdExtends_refl s

theorem splitChild_id (env : Env) (ast : AsteroidState) (i : ℕ)
    (spread speedMult : ℚ) (cid : ℕ) :
    (splitChild env ast i spread speedMult cid).id = cid := rfl

theorem processHit_alloc (env : Env) (now : ℚ) (acc : HitAcc)
    (b : BulletRuntime) (ast : AsteroidState) :
    (processHit env now acc b ast).players.map (·.id) = acc.players.map (·.id) ∧
    acc.next_id ≤ (processHit env now acc b ast).next_id ∧
    ∃ fresh : List ℕ,
      fresh.Nodup ∧
      (∀ i ∈ fresh, acc.next_id ≤ i ∧ i < (processHit env now acc b ast).next_id) ∧
      List.Perm
        ((processHit env now acc b ast).new_asteroids.map (·.id)
          ++ (processHit env now acc b ast).power_ups.map (·.state.id))
        ((acc.new_asteroids.map (·.id) ++ acc.power_ups.map (·.state.id)) ++ fresh) := by
  simp only [processHit, Rng.draw, Rng.drawNat]
  cases lookupRt acc.runtime b.state.owner_id with
  | none =>
    dsimp only
    split_ifs <;> (try dsimp only)
    · refine ⟨rfl, by omega,
        [acc.next_id, acc.next_id + 1, acc.next_id + 2], ?_, ?_, ?_⟩
      · simp only [List.nodup_cons, List.mem_cons, List.mem_singleton,
          List.not_mem_nil, List.nodup_nil, or_false, and_true,
          not_false_eq_true]
        omega
      · intro i hi
        simp only [List.mem_cons, List.mem_singleton, List.not_mem_nil,
          or_false] at hi
        omega
      · simp only [List.map_append, List.map_cons, List.map_nil, splitChild_id]
        exact perm_shuffle (acc.new_asteroids.map (·.id))
          [acc.next_id, acc.next_id + 1] (acc.power_ups.map (·.state.id))
          [acc.next_id + 2]
    · refine ⟨rfl, by omega, [acc.next_id, acc.next_id + 1], ?_, ?_, ?_⟩
      · simp only [List.nodup_cons, List.mem_singleton, List.not_mem_nil,
          List.nodup_nil, or_false, and_true, not_false_eq_true]
        omega
      · intro i hi
        simp only [List.mem_cons, List.mem_singleton, List.not_mem_nil,
          or_false] at hi
        omega
      · simp only [List.map_append, List.map_cons, List.map_nil, splitChild_id]
        have := perm_shuffle (acc.new_asteroids.map (·.id))
          [acc.next_id, acc.next_id + 1] (acc.power_ups.map (·.state.id)) []
        simp only [List.append_nil] at this
        exact this
    · refine ⟨rfl, by omega, [acc.next_id], ?_, ?_, ?_⟩
      · simp only [List.nodup_cons, List.not_mem_nil, List.nodup_nil]
        exact ⟨not_false, trivial⟩
      · intro i hi
        simp only [List.mem_singleton] at hi
        omega
      · simp only [List.map_append, List.map_cons, List.map_nil]
        have := perm_shuffle (acc.new_asteroids.map (·.id)) []
          (acc.power_ups.map (·.state.id)) [acc.next_id]
        simp only [List.append_nil, List.nil_append] at this
        exact this
    · refine ⟨rfl, le_refl _, [], List.nodup_nil,
        fun i hi => absurd hi (List.not_mem_nil i), ?_⟩
      simp
  | some rt =>
    dsimp only
    split_ifs <;> (try dsimp only)
    · refine ⟨updatePlayer_ids _ _ _ (fun p => rfl), by omega,
        [acc.next_id, acc.next_id + 1, acc.next_id + 2], ?_, ?_, ?_⟩
      · simp only [List.nodup_cons, List.mem_cons, List.mem_singleton,
          List.not_mem_nil, List.nodup_nil, or_false, and_true,
          not_false_eq_true]
        omega
      · intro i hi
        simp only [List.mem_cons, List.mem_singleton, List.not_mem_nil,
          or_false] at hi
        omega
      · simp only [List.map_append, List.map_cons, List.map_nil, splitChild_id]
        exact perm_shuffle (acc.new_asteroids.map (·.id))
          [acc.next_id, acc.next_id + 1] (acc.power_ups.map (·.state.id))
          [acc.next_id + 2]
    · refine ⟨updatePlayer_ids _ _ _ (fun p => rfl), by omega,
        [acc.next_id, acc.next_id + 1], ?_, ?_, ?_⟩
      · simp only [List.nodup_cons, List.mem_singleton, List.not_mem_nil,
          List.nodup_nil, or_false, and_true, not_false_eq_true]
        omega
      · intro i hi
        simp only [List.mem_cons, List.mem_singleton, List.not_mem_nil,
          or_false] at hi
        omega
      · simp only [List.map_append, List.map_cons, List.map_nil, splitChild_id]
        have := perm_shuffle (acc.new_asteroids.map (·.id))
          [acc.next_id, acc.next_id + 1] (acc.power_ups.map (·.state.id)) []
        simp only [List.append_nil] at this
        exact this
    · refine ⟨updatePlayer_ids _ _ _ (fun p => rfl), by omega, [acc.next_id],
        ?_, ?_, ?_⟩
      · simp only [List.nodup_cons, List.not_mem_nil, List.nodup_nil]
        exact ⟨not_false, trivial⟩
      · intro i hi
        simp only [List.mem_singleton] at hi
        omega
      · simp only [List.map_append, List.map_cons, List.map_nil]
        have := perm_shuffle (acc.new_asteroids.map (·.id)) []
          (acc.power_ups.map (·.state.id)) [acc.next_id]
        simp only [List.append_nil, List.nil_append] at this
        exact this
    · refine ⟨updatePlayer_ids _ _ _ (fun p => rfl), le_refl _, [],
        List.nodup_nil, fun i hi => absurd hi (List.not_mem_nil i), ?_⟩
      simp

theorem processBullet_alloc (env : Env) (now : ℚ) (asteroids : List AsteroidState)
    (acc : HitAcc) (b : BulletRuntime) :
    (processBullet env now asteroids acc b).players.map (·.id)
      = acc.players.map (·.id) ∧
    acc.next_id ≤ (processBullet env now asteroids acc b).next_id ∧
    ∃ fresh : List ℕ,
      fresh.Nodup ∧
      (∀ i ∈ fresh,
        acc.next_id ≤ i ∧ i < (processBullet env now asteroids acc b).next_id) ∧
      List.Perm
        ((processBullet env now asteroids acc b).new_asteroids.map (·.id)
          ++ (processBullet env now asteroids acc b).power_ups.map (·.state.id))
        ((acc.new_asteroids.map (·.id) ++ acc.power_ups.map (·.state.id)) ++ fresh) := by
  cases hf : asteroids.find? (fun ast => collidesBulletAst b ast) with
  | none =>
    have he : processBullet env now asteroids acc b = acc := by
      simp only [processBullet, hf]
    rw [he]
    exact ⟨rfl, le_refl _, [], List.nodup_nil,
      fun i hi => absurd hi (List.not_mem_nil i), by simp⟩
  | some ast =>
    have he : processBullet env now asteroids acc b = processHit env now acc b ast := by
      simp only [processBullet, hf]
    rw [he]
    exact processHit_alloc env now acc b ast

theorem foldl_processBullet_alloc (env : Env) (now : ℚ)
    (asteroids : List AsteroidState) (bs : List BulletRuntime) (acc : HitAcc) :
    (bs.foldl (processBullet env now asteroids) acc).players.map (·.id)
      = acc.players.map (·.id) ∧
    acc.next_id ≤ (bs.foldl (processBullet env now asteroids) acc).next_id ∧
    ∃ fresh : List ℕ,
      fresh.Nodup ∧
      (∀ i ∈ fresh,
        acc.next_id ≤ i ∧ i < (bs.foldl (processBullet env now asteroids) acc).next_id) ∧
      List.Perm
        ((bs.foldl (processBullet env now asteroids) acc).new_asteroids.map (·.id)
          ++ (bs.foldl (processBullet env now asteroids) acc).power_ups.map
              (·.state.id))
        ((acc.new_asteroids.map (·.id) ++ acc.power_ups.map (·.state.id)) ++ fresh) := by
  induction bs generalizing acc with
  | nil =>
    exact ⟨rfl, le_refl _, [], List.nodup_nil,
      fun i hi => absurd hi (List.not_mem_nil i), by simp⟩
  | cons b rest ih =>
    simp only [List.foldl_cons]
    obtain ⟨s1, s2, f1, hf1n, hf1b, hf1p⟩ := processBullet_alloc env now asteroids acc b
    obtain ⟨i1, i2, f2, hf2n, hf2b, hf2p⟩ := ih (processBullet env now asteroids acc b)
    refine ⟨i1.trans s1, le_trans s2 i2, f1 ++ f2, ?_, ?_, ?_⟩
    · exact nodup_append_bounded f1 f2 (processBullet env now asteroids acc b).next_id
        hf1n hf2n (fun i hi => (hf1b i hi).2) (fun j hj => (hf2b j hj).1)
    · intro i hi
      rcases List.mem_append.mp hi with h | h
      · exact ⟨(hf1b i h).1, lt_of_lt_of_le (hf1b i h).2 i2⟩
      · exact ⟨le_trans s2 (hf2b i h).1, (hf2b i h).2⟩
    · refine hf2p.trans (List.Perm.trans (List.Perm.append_right f2 hf1p) ?_)
      rw [List.append_assoc]

theorem collectHits_alloc (s : ServerState) (now : ℚ) (rng : Rng) (env : Env) :
    (collectHits s now rng env).players.map (·.id) = s.players.map (·.id) ∧
    s.next_id ≤ (collectHits s now rng env).next_id ∧
    ∃ fresh : List ℕ,
      fresh.Nodup ∧
      (∀ i ∈ fresh, s.next_id ≤ i ∧ i < (collectHits s now rng env).next_id) ∧
      List.Perm
        ((collectHits s now rng env).new_asteroids.map (·.id)
          ++ (collectHits s now rng env).power_ups.map (·.state.id))
        (s.power_ups.map (·.state.id) ++ fresh) := by
  obtain ⟨h1, h2, fresh, hn, hb, hp⟩ := foldl_processBullet_alloc env now s.asteroids
    s.bullets ⟨[], [], [], [], s.runtime, s.players, s.power_ups, s.next_id, rng⟩
  exact ⟨h1, h2, fresh, hn, hb, hp⟩

theorem bulletAsteroidPhase_IdExtends (s : ServerState) (now : ℚ) (rng : Rng)
    (env : Env) : IdExtends s (bulletAsteroidPhase s now rng env).1 := by
  obtain ⟨h1, h2, fresh, hfn, hfb, hfp⟩ := collectHits_alloc s now rng env
  refine IdExtends_of_perm_sub_fresh s _
    (s.clients
      ++ (s.bullets.filter fun b =>
            decide (b.state.id ∉ (collectHits s now rng env).bullets_to_remove)).map
          (·.state.id)
      ++ (s.asteroids.filter fun a =>
            decide (a.id ∉ (collectHits s now rng env).asteroids_to_remove)).map
          (·.id)
      ++ s.power_ups.map (·.state.id))
    fresh ?_ ?_ hfn hfb h2 h1 rfl
  · have hids : idsAll (bulletAsteroidPhase s now rng env).1
        = s.clients
          ++ (s.bullets.filter fun b =>
                decide (b.state.id ∉ (collectHits s now rng env).bullets_to_remove)).map
              (·.state.id)
          ++ ((s.asteroids.filter fun a =>
                decide (a.id ∉ (collectHits s now rng env).asteroids_to_remove)).map
                (·.id)
              ++ (collectHits s now rng env).new_asteroids.map (·.id))
          ++ (collectHits s now rng env).power_ups.map (·.state.id) := by
      simp only [idsAll, bulletAsteroidPhase, List.map_append]
    rw [hids, List.perm_iff_count]
    intro x
    have hc := List.perm_iff_count.mp hfp x
    simp only [List.count_append] at hc ⊢
    omega
  · rw [idsAll]
    exact (((List.Sublist.refl s.clients).append
        (List.Sublist.map _ (List.filter_sublist _))).append
        (List.Sublist.map _ (List.filter_sublist _))).append (List.Sublist.refl _)

theorem tick_IdExtends (s : ServerState) (now dt : ℚ) (rng : Rng) (env : Env) :
    IdExtends s (tick s now dt rng env).1 := by
  refine IdExtends_trans (respawnPhase_IdExtends s now rng) ?_
  refine IdExtends_trans (syncPhase_IdExtends _ now) ?_
  refine IdExtends_trans (movementPhase_IdExtends _ now dt env) ?_
  refine IdExtends_trans (bulletUpdatePhase_IdExtends _ dt) ?_
  refine IdExtends_trans (asteroidMovePhase_IdExtends _ dt) ?_
  refine IdExtends_trans (powerUpExpiryPhase_IdExtends _ now) ?_
  refine IdExtends_trans
    (bulletAsteroidPhase_IdExtends _ now (respawnPhase s now rng).2 env) ?_
  refine IdExtends_trans (powerUpPickupPhase_IdExtends _ now) ?_
  refine IdExtends_trans (playerAsteroidPhase_IdExtends _ now) ?_
  refine IdExtends_trans (pvpPhase_IdExtends _ now) ?_
  exact wavePhase_IdExtends _ now
    (bulletAsteroidPhase
      (powerUpExpiryPhase
        (asteroidMovePhase
          (bulletUpdatePhase
            (movementPhase (syncPhase (respawnPhase s now rng).1 now) now dt env)
            dt)
          dt)
        now)
      now (respawnPhase s now rng).2 env).2

/-- C10: every id the server hands out — client ids in the connection
handshake, player spawns for known clients, and the bullet, split-child
asteroid, wave-spawn asteroid and power-up ids allocated inside the tick —
is drawn from the single shared `next_id` counter.  On a fresh server the
id-freshness invariant `IdInv` holds (all live ids pairwise distinct and
below the counter); each operation only ever increases the counter,
preserves `IdInv`, and every id live afterwards that was not live before is
at least the old counter value, hence strictly larger than every previously
assigned id (`IdExtends`). -/
theorem c10_id_freshness :
    (∀ rng : Rng, IdInv (ServerState.new rng).1) ∧
    (∀ s : ServerState, IdExtends s (connectClient s).2 ∧
      (connectClient s).1.1 = s.next_id ∧
      (connectClient s).2.next_id = s.next_id + 1) ∧
    (∀ (s : ServerState) (id : ℕ) (now : ℚ) (rng : Rng), id ∈ s.clients →
      IdExtends s (joinPlayer s id now rng).1) ∧
    (∀ (s : ServerState) (now dt : ℚ) (rng : Rng) (env : Env),
      IdExtends s (tick s now dt rng env).1) :=
  ⟨ServerState_new_IdInv,
   connectClient_IdExtends,
   joinPlayer_IdExtends,
   tick_IdExtends⟩

/-- C10 witness: the id-freshness statement exercised at the concrete state
`cs1` (clients 1 and 2, a bullet, an asteroid, counter at 60): `IdInv`
holds there, the join of the known client 1 extends it, and so does a full
tick; in particular `IdInv` still holds after the tick. -/
theorem c10_witness :
    IdInv cs1 ∧
    IdExtends cs1 (joinPlayer cs1 1 0 rng0).1 ∧
    IdExtends cs1 (tick cs1 0 1 rng0 env0).1 ∧
    IdInv (tick cs1 0 1 rng0 env0).1 :=
  ⟨by decide,
   c10_id_freshness.2.2.1 cs1 1 0 rng0 (by decide),
   c10_id_freshness.2.2.2 cs1 0 1 rng0 env0,
   ((c10_id_freshness.2.2.2 cs1 0 1 rng0 env0).2 (by decide)).1⟩
